import Mathlib

/-!
Verification development for the `center` repository: a shallow embedding of
the RentCafe→Framer, On-Site→Webflow and AppFolio→Webflow sync code, with
theorems settling the frozen specification claims.

JavaScript strings are modelled as `List Char` (`JStr`).  JavaScript numbers
carried by the sync records are modelled as `ℚ` (the sources only produce
finite decimal values; NaN cannot come out of JSON parsing).  Fallible
JavaScript code (functions that can throw) is modelled with `Except Unit`.
The JS `Date` engine is an external collaborator; it is modelled for exactly
the date-time string shapes this codebase constructs
(`YYYY-MM-DD`, `YYYY-MM-DDT00:00:00Z`, `YYYY-MM-DDT00:00:00.000Z`),
all other strings behaving as an Invalid Date, which matches V8 on every
string the embedded pipeline can build.
-/

/-- JavaScript strings, modelled as lists of characters. -/
abbrev JStr := List Char

/-- ASCII lower-casing of one character, the effect of `String.prototype.toLowerCase`
on the ASCII range the sync data lives in. -/
def lowerChar (c : Char) : Char :=
  if 65 ≤ c.toNat ∧ c.toNat ≤ 90 then Char.ofNat (c.toNat + 32) else c

/-- ASCII upper-casing of one character (`String.prototype.toUpperCase`). -/
def upperChar (c : Char) : Char :=
  if 97 ≤ c.toNat ∧ c.toNat ≤ 122 then Char.ofNat (c.toNat - 32) else c

/-- Model of `String.prototype.toLowerCase`. -/
def jsToLower (s : JStr) : JStr := s.map lowerChar

/-- Model of `String.prototype.toUpperCase`. -/
def jsToUpper (s : JStr) : JStr := s.map upperChar

/-- The whitespace characters relevant to `trim` / `\s` for the data this
codebase handles (space, tab, newline, carriage return). -/
def isWs (c : Char) : Bool :=
  decide (c.toNat = 32) || decide (c.toNat = 9) ||
    decide (c.toNat = 10) || decide (c.toNat = 13)

/-- Model of `String.prototype.trim`: strip leading and trailing whitespace. -/
def jsTrim (s : JStr) : JStr :=
  ((s.dropWhile isWs).reverse.dropWhile isWs).reverse

/-- Model of `String.prototype.includes`: `containsSub sub s` is true when
`sub` occurs as a contiguous substring of `s`. -/
def containsSub (sub : JStr) : JStr → Bool
  | [] => sub.isEmpty
  | c :: r => sub.isPrefixOf (c :: r) || containsSub sub r

/-- Model of `String.prototype.split(sep)` for a one-character separator. -/
def splitOnChar (sep : Char) : JStr → List JStr
  | [] => [[]]
  | c :: r =>
    if c = sep then [] :: splitOnChar sep r
    else
      match splitOnChar sep r with
      | [] => [[c]]
      | h :: t => (c :: h) :: t

/-- Model of `String.prototype.padStart(2, '0')`. -/
def pad2 (s : JStr) : JStr :=
  if s.length < 2 then List.replicate (2 - s.length) '0' ++ s else s

/-- Decimal digits of a natural number, most significant first. -/
def natDigits (n : Nat) : JStr := Nat.toDigits 10 n

/-- Decimal rendering padded with leading zeros to width 2. -/
def pad2n (n : Nat) : JStr :=
  List.replicate (2 - (natDigits n).length) '0' ++ natDigits n

/-- Decimal rendering padded with leading zeros to width 4. -/
def pad4n (n : Nat) : JStr :=
  List.replicate (4 - (natDigits n).length) '0' ++ natDigits n

/-- Numeric value of a list of decimal digit characters. -/
def digitsToNat (s : JStr) : Nat :=
  s.foldl (fun a c => a * 10 + (c.toNat - 48)) 0

/-- The `T00:00:00Z` time suffix the RentCafe date parser appends. -/
def tailZ : JStr := "T00:00:00Z".data

/-- The `.000`-millisecond time suffix `Date.prototype.toISOString` produces. -/
def tailMs : JStr := "T00:00:00.000Z".data

/-- Gregorian leap-year test. -/
def isLeap (y : Nat) : Bool :=
  (decide (y % 4 = 0) && decide (y % 100 ≠ 0)) || decide (y % 400 = 0)

/-- Days in a month of the proleptic Gregorian calendar. -/
def daysInMonth (y m : Nat) : Nat :=
  if m = 2 then (if isLeap y then 29 else 28)
  else if m = 4 ∨ m = 6 ∨ m = 9 ∨ m = 11 then 30
  else 31

/-- Calendar validity of a year-month-day triple, as the JS Date-time string
format checks it. -/
def validYMD (y m d : Nat) : Bool :=
  decide (1 ≤ m) && decide (m ≤ 12) && decide (1 ≤ d) && decide (d ≤ daysInMonth y m)

/-- Days since 1970-01-01 of a proleptic-Gregorian civil date
(the standard days-from-civil computation). -/
def daysFromCivil (y m d : Nat) : Int :=
  let yi : Int := if m ≤ 2 then (y : Int) - 1 else (y : Int)
  let era : Int := Int.fdiv yi 400
  let yoe : Nat := (yi - era * 400).toNat
  let mp : Nat := if 2 < m then m - 3 else m + 9
  let doy : Nat := (153 * mp + 2) / 5 + d - 1
  let doe : Nat := yoe * 365 + yoe / 4 + yoe / 400 + doy - yoe / 100
  era * 146097 + (doe : Int) - 719468

/-- Model of the JS Date engine's string parse, for the shapes this codebase
builds: `YYYY-MM-DD` with an optional `T00:00:00Z` or `T00:00:00.000Z` tail.
Returns the civil date; `none` models an Invalid Date (NaN timestamp). -/
def jsParseYMD (s : JStr) : Option (Nat × Nat × Nat) :=
  match s with
  | y1 :: y2 :: y3 :: y4 :: '-' :: m1 :: m2 :: '-' :: d1 :: d2 :: tail =>
    if ([y1, y2, y3, y4, m1, m2, d1, d2].all Char.isDigit)
        && (tail.isEmpty || tail == tailZ || tail == tailMs) then
      let y := digitsToNat [y1, y2, y3, y4]
      let m := digitsToNat [m1, m2]
      let d := digitsToNat [d1, d2]
      if validYMD y m d then some (y, m, d) else none
    else none
  | _ => none

/-- Model of `Date.parse` / `new Date(s).getTime()` on the supported shapes:
milliseconds since the epoch, `none` for NaN. -/
def jsDateParse (s : JStr) : Option Int :=
  (jsParseYMD s).map (fun t => daysFromCivil t.1 t.2.1 t.2.2 * 86400000)

/-- The ISO string `Date.prototype.toISOString` renders for a UTC-midnight date. -/
def renderIsoMidnight (y m d : Nat) : JStr :=
  pad4n y ++ '-' :: pad2n m ++ '-' :: pad2n d ++ tailMs

/-- Model of `new Date(s).toISOString()`: the canonical ISO rendering, or
`none` when the date is invalid (where the JS call throws a RangeError). -/
def jsNewDateToISO (s : JStr) : Option JStr :=
  (jsParseYMD s).map (fun t => renderIsoMidnight t.1 t.2.1 t.2.2)

/-- Embedding of `parseUsDateToISO` (src/rentcafe/framerSync.js, lines 63-70).
The JS function returns a string, except that `new Date(...).toISOString()`
throws a RangeError when the assembled date string is invalid; `.error ()`
models that throw. -/
def parseUsDateToISO (mdy : JStr) : Except Unit JStr :=
  if mdy = [] then .ok []
  else
    match splitOnChar '/' mdy with
    | m :: d :: y :: _ =>
      if m = [] ∨ d = [] ∨ y = [] then .ok []
      else
        match jsNewDateToISO (y ++ '-' :: pad2 m ++ '-' :: pad2 d ++ tailZ) with
        | some iso => .ok iso
        | none => .error ()
    | _ => .ok []

/-- Embedding of `requireBearer` (src/rentcafe/framerSync.js, lines 7-15):
`cfg` is the configured `FRAMER_SYNC_TOKEN` (`''` when the env var is unset),
`authHeader` the request's Authorization header (`none` when absent).
`true` means the request is passed on (`next()`), `false` means HTTP 401. -/
def requireBearer (cfg : JStr) (authHeader : Option JStr) : Bool :=
  let auth := authHeader.getD []
  let token := if "Bearer ".data.isPrefixOf auth then auth.drop 7 else []
  if cfg = [] ∨ token ≠ cfg then false else true

/-- One raw record as the RentCafe availability endpoint yields it
(the fields `normalizeRentCafeUnits` reads).  `none` models an absent
(undefined/null) field; numeric fields are `some q` exactly when the JSON
value is a number. -/
structure RawUnit where
  apartmentName : Option JStr := none
  unitNumber : Option JStr := none
  slug : Option JStr := none
  floorplanName : Option JStr := none
  floorplanId : Option JStr := none
  style : Option JStr := none
  unitStatus : Option JStr := none
  availableDate : Option JStr := none
  minimumRent : Option ℚ := none
  maximumRent : Option ℚ := none
deriving DecidableEq

/-- The identifier chain `u.apartmentName ?? u.unitNumber ?? u.slug ?? ''`. -/
def identOf (u : RawUnit) : JStr :=
  ((u.apartmentName.or u.unitNumber).or u.slug).getD []

/-- The unit-type chain `u.floorplanName ?? u.floorplanId ?? u.style ?? ''`. -/
def typeOfRaw (u : RawUnit) : JStr :=
  ((u.floorplanName.or u.floorplanId).or u.style).getD []

/-- Embedding of `isAvailableStatus` (src/rentcafe/framerSync.js, lines 51-61). -/
def isAvailableStatus (status : Option JStr) : Bool :=
  if jsToLower (status.getD []) = [] then false
  else
    containsSub "vacant unrented".data (jsToLower (status.getD [])) ||
      containsSub "notice unrented".data (jsToLower (status.getD [])) ||
      (containsSub "vacant".data (jsToLower (status.getD [])) &&
        !containsSub "rented".data (jsToLower (status.getD []))) ||
      jsToLower (status.getD []) == "available".data

/-- The `available` expression of `normalizeRentCafeUnits`:
`isAvailableStatus(u.unitStatus) || (typeof u.minimumRent === 'number' && u.minimumRent > 0)`. -/
def availableOf (u : RawUnit) : Bool :=
  isAvailableStatus u.unitStatus ||
    (match u.minimumRent with
     | some r => decide (0 < r)
     | none => false)

/-- The canonical unit record `normalizeRentCafeUnits` produces. -/
structure CanonicalUnit where
  slug : JStr
  unitType : JStr
  available : Bool
  availableDate : JStr
  minRent : Option ℚ
  maxRent : Option ℚ
  updatedAt : JStr
deriving DecidableEq

/-- One step of the `.map(...)` body of `normalizeRentCafeUnits`
(src/rentcafe/framerSync.js, lines 81-89); `nowIso` is the ambient
`new Date().toISOString()`.  The only fallible part is the date parse. -/
def normalizeUnit (nowIso : JStr) (u : RawUnit) : Except Unit CanonicalUnit :=
  match (match u.availableDate with
         | none => Except.ok []
         | some s => if s = [] then Except.ok [] else parseUsDateToISO s) with
  | .error e => .error e
  | .ok ad =>
    .ok { slug := jsToLower (jsTrim (identOf u))
          unitType := jsTrim (typeOfRaw u)
          available := availableOf u
          availableDate := ad
          minRent := u.minimumRent
          maxRent := u.maximumRent
          updatedAt := nowIso }

/-- The `.map(...)` over the record list: evaluates left to right and
propagates the first thrown error, as JS `Array.prototype.map` does. -/
def normalizeList (nowIso : JStr) : List RawUnit → Except Unit (List CanonicalUnit)
  | [] => .ok []
  | u :: r =>
    match normalizeUnit nowIso u with
    | .error e => .error e
    | .ok cu =>
      match normalizeList nowIso r with
      | .error e => .error e
      | .ok rest => .ok (cu :: rest)

/-- The response object of the units URL
(`raw?.apartmentAvailabilities || raw?.units || []`). -/
structure RawResponse where
  apartmentAvailabilities : Option (List RawUnit) := none
  units : Option (List RawUnit) := none
deriving DecidableEq

/-- The list selection `raw?.apartmentAvailabilities || raw?.units || []`
(a present array is truthy even when empty). -/
def rawList (raw : RawResponse) : List RawUnit :=
  match raw.apartmentAvailabilities with
  | some l => l
  | none =>
    match raw.units with
    | some l => l
    | none => []

/-- Embedding of `normalizeRentCafeUnits` (src/rentcafe/framerSync.js,
lines 72-91): map each record to a canonical unit, then keep those with a
non-empty slug.  The `property` argument is unused, as in the source. -/
def normalizeRentCafeUnits (nowIso property : JStr) (raw : RawResponse) :
    Except Unit (List CanonicalUnit) :=
  match normalizeList nowIso (rawList raw) with
  | .error e => .error e
  | .ok l => .ok (l.filter (fun u => !u.slug.isEmpty))

/-- The availability formula exactly as the specification claim words it:
contains "vacant unrented", or contains "notice unrented", or (contains
"vacant" and not contains "rented"), or equals exactly "available", or the
minimum rent is a positive number — all on the lowercased status text. -/
def specAvailable (status : Option JStr) (minimumRent : Option ℚ) : Bool :=
  containsSub "vacant unrented".data (jsToLower (status.getD [])) ||
    containsSub "notice unrented".data (jsToLower (status.getD [])) ||
    (containsSub "vacant".data (jsToLower (status.getD [])) &&
      !containsSub "rented".data (jsToLower (status.getD []))) ||
    jsToLower (status.getD []) == "available".data ||
    (match minimumRent with
     | some r => decide (0 < r)
     | none => false)

/-- The number of raw records whose computed slug is non-empty. -/
def goodSlugCount (l : List RawUnit) : Nat :=
  (l.filter (fun r => !(jsToLower (jsTrim (identOf r))).isEmpty)).length

/-- JSON-representable field values as the sync jobs move them (all field
values the embedded builders construct are primitives); `undefv` models a JS
`undefined` (an absent object property). -/
inductive JVal
  | undefv
  | null
  | bool (b : Bool)
  | num (q : ℚ)
  | str (s : JStr)
deriving DecidableEq

/-- Little-endian decimal digits, by fuel (kernel-reducible). -/
def digitsRevAux : Nat → Nat → List Nat
  | 0, _ => []
  | _ + 1, 0 => []
  | fuel + 1, n + 1 => ((n + 1) % 10) :: digitsRevAux fuel ((n + 1) / 10)

/-- Little-endian decimal digits of a natural number. -/
def natDigitsNum (n : Nat) : List Nat := digitsRevAux n n

/-- Value of little-endian decimal digits. -/
def fromDigits : List Nat → Nat
  | [] => 0
  | d :: r => d + 10 * fromDigits r

/-- Decimal rendering of a natural number (empty for 0), an injective
stand-in for the canonical JS number-to-string rendering. -/
def natStr (n : Nat) : JStr := ((natDigitsNum n).map Nat.digitChar).reverse

/-- Signed decimal rendering of an integer. -/
def intStr (i : Int) : JStr :=
  if i < 0 then '-' :: natStr i.natAbs else natStr i.natAbs

/-- Injective rendering of a rational field value, the stand-in for
`JSON.stringify` on numbers: stringify-equality on JS numbers is numeric
equality, which any injective rendering preserves. -/
def renderNum (q : ℚ) : JStr := intStr q.num ++ '/' :: natStr q.den

/-- JSON string escaping of one character (the two JSON-mandatory escapes
that can appear in this data). -/
def escChar (c : Char) : JStr :=
  if c = '"' ∨ c = '\\' then ['\\', c] else [c]

/-- JSON string escaping. -/
def escape (s : JStr) : JStr := s.flatMap escChar

/-- Model of `JSON.stringify` on the field values the sync jobs handle:
`none` models `JSON.stringify(undefined) === undefined`. -/
def jsonStr : JVal → Option JStr
  | .undefv => none
  | .null => some ("null".data)
  | .bool b => some (if b then "true".data else "false".data)
  | .num q => some (renderNum q)
  | .str s => some ('"' :: (escape s ++ ['"']))

/-- JS object property read over an association-list object: `undefined`
when the key is absent. -/
def jsGet (obj : List (JStr × JVal)) (k : JStr) : JVal :=
  match obj.find? (fun p => p.1 == k) with
  | some p => p.2
  | none => .undefv

/-- Embedding of `logChanges` (src/onsite/onSiteSync.js lines 62-70 and
src/appfolio/appfolioSync.js lines 46-52): reduce over the keys of
`newData`, pushing `{field, oldValue, newValue}` exactly when
`JSON.stringify(oldValue) !== JSON.stringify(newValue)`. -/
def logChanges (oldData newData : List (JStr × JVal)) : List (JStr × JVal × JVal) :=
  newData.foldl
    (fun arr kv =>
      if jsonStr (jsGet oldData kv.1) ≠ jsonStr kv.2 then
        arr ++ [(kv.1, jsGet oldData kv.1, kv.2)]
      else arr)
    []

/-- The per-key decision of `logChanges`, as an `Option` producer. -/
def changeEntry (oldData : List (JStr × JVal)) (kv : JStr × JVal) :
    Option (JStr × JVal × JVal) :=
  if jsonStr (jsGet oldData kv.1) ≠ jsonStr kv.2 then
    some (kv.1, jsGet oldData kv.1, kv.2)
  else none

/-- Word characters of the JS regex `\w` class. -/
def isWordChar (c : Char) : Bool := c.isAlphanum || c = '_'

/-- The match attempt of `/\bApt[-\s]*([A-Za-z0-9]+)\b/` at one position
(the text starting at that position), assuming the leading word boundary
holds.  Backtracking into the greedy groups can never succeed here (any
shorter alphanumeric capture is followed by a word character), so a plain
greedy scan is exact. -/
def aptTail (l : JStr) : Option JStr :=
  match l with
  | 'A' :: 'p' :: 't' :: rest =>
    let rest2 := rest.dropWhile (fun c => decide (c = '-') || isWs c)
    let unit := rest2.takeWhile Char.isAlphanum
    if unit.isEmpty then none
    else
      match rest2.drop unit.length with
      | [] => some unit
      | a :: _ => if isWordChar a then none else some unit
  | _ => none

/-- Left-to-right scan of the regex engine: try each position whose left
context is a word boundary, first success wins. -/
def scanApt : Option Char → JStr → Option JStr
  | _, [] => none
  | prev, c :: r =>
    match (if (match prev with | none => true | some p => !isWordChar p) then
             aptTail (c :: r)
           else none) with
    | some u => some u
    | none => scanApt (some c) r

/-- Embedding of `parseUnitFromAddress` (src/appfolio/appfolioSync.js,
lines 54-58). -/
def parseUnitFromAddress (address : JStr) : Option JStr := scanApt none address

/-- The match attempt of `/\$([\d,]+)/` at one position. -/
def moneyDigits (l : JStr) : Option JStr :=
  match l with
  | '$' :: rest =>
    let run := rest.takeWhile (fun c => c.isDigit || decide (c = ','))
    if run.isEmpty then none else some run
  | _ => none

/-- Left-to-right scan for the first `$` followed by digits or commas. -/
def scanMoney : JStr → Option JStr
  | [] => none
  | c :: r =>
    match moneyDigits (c :: r) with
    | some run => some run
    | none => scanMoney r

/-- Embedding of `parseMoneyToNumber` (src/appfolio/appfolioSync.js,
lines 60-66): `"$5,995"` yields `5995`; commas are stripped before the
numeric conversion (a run of commas alone converts to 0, as `Number('')`). -/
def parseMoneyToNumber (text : JStr) : Option ℚ :=
  match scanMoney text with
  | none => none
  | some run => some ((digitsToNat (run.filter (fun c => c != ','))) : ℚ)

/-- Embedding of `parseAppfolioUsShortDateToISO` (src/appfolio/appfolioSync.js,
lines 68-86): `MM/DD/YY` with the 20xx/19xx century rule; `none` models the
`null` returns (no throw here — the source checks `isNaN` first). -/
def parseAppfolioUsShortDateToISO (mdy : JStr) : Option JStr :=
  if jsTrim mdy = [] then none
  else
    match splitOnChar '/' (jsTrim mdy) with
    | [m, d, y] =>
      if (decide (1 ≤ m.length) && decide (m.length ≤ 2) && m.all Char.isDigit)
          && (decide (1 ≤ d.length) && decide (d.length ≤ 2) && d.all Char.isDigit)
          && (decide (y.length = 2) && y.all Char.isDigit) then
        let yy := digitsToNat y
        let yyyy : JStr := (if yy < 50 then "20".data else "19".data) ++ pad2n yy
        jsNewDateToISO (yyyy ++ '-' :: pad2 m ++ '-' :: pad2 d ++ tailZ)
      else none
    | _ => none

/-- The `replace(/\s+/g, '-')` of `generateSlug`: the Boolean tracks whether
the scan stands inside a whitespace run (which contributes one hyphen). -/
def collapseWsDashGo : Bool → JStr → JStr
  | _, [] => []
  | inWs, c :: r =>
    if isWs c then
      if inWs then collapseWsDashGo true r
      else '-' :: collapseWsDashGo true r
    else c :: collapseWsDashGo false r

/-- Embedding of the `replace(/\s+/g, '-')` step of `generateSlug`
(src/appfolio/appfolioSync.js line 43 and src/onsite/onSiteSync.js lines
48-53): every whitespace run becomes one hyphen. -/
def collapseWsDash (s : JStr) : JStr := collapseWsDashGo false s

/-- `generateSlug`: trim, lowercase, whitespace runs to hyphens. -/
def generateSlug (s : JStr) : JStr := collapseWsDash (jsToLower (jsTrim s))

/-- One parsed AppFolio listing tile: the trimmed address text, the
quick-facts rows as (label text, value text), and the trimmed
availability text ('' when the node is absent). -/
structure RawListing where
  address : JStr
  rows : List (JStr × JStr)
  availText : JStr
deriving DecidableEq

/-- The value stored in the AppFolio unit map. -/
structure ParsedUnit where
  unit : JStr
  rent : ℚ
  availableIso : Option JStr
  address : JStr
deriving DecidableEq

/-- The quick-facts scan of `fetchAppFolioUnits`: `rent` ends up holding the
first non-null parse among the rows labelled RENT (a null parse leaves the
variable null, so later RENT rows are still tried). -/
def rentOfRows : List (JStr × JStr) → Option ℚ
  | [] => none
  | (label, value) :: rest =>
    if jsToUpper (jsTrim label) = "RENT".data then
      match parseMoneyToNumber (jsTrim value) with
      | some r => some r
      | none => rentOfRows rest
    else rentOfRows rest

/-- The per-listing body of `fetchAppFolioUnits` (src/appfolio/appfolioSync.js,
lines 214-242): skip listings without a parsed unit or rent, otherwise
produce the map entry keyed by the generated slug. -/
def listingEntry (l : RawListing) : Option (JStr × ParsedUnit) :=
  match parseUnitFromAddress l.address with
  | none => none
  | some unit =>
    match rentOfRows l.rows with
    | none => none
    | some rent =>
      some (generateSlug unit,
        { unit := unit
          rent := rent
          availableIso := parseAppfolioUsShortDateToISO l.availText
          address := l.address })

/-- JS `Map.prototype.set`: update in place when the key exists (keeping its
position), otherwise append. -/
def mapSet (m : List (JStr × ParsedUnit)) (k : JStr) (v : ParsedUnit) :
    List (JStr × ParsedUnit) :=
  if m.any (fun p => p.1 == k) then
    m.map (fun p => if p.1 == k then (k, v) else p)
  else m ++ [(k, v)]

/-- JS `Map.prototype.get`. -/
def mapLookup (m : List (JStr × ParsedUnit)) (k : JStr) : Option ParsedUnit :=
  match m.find? (fun p => p.1 == k) with
  | some p => some p.2
  | none => none

/-- Embedding of the map-building loop of `fetchAppFolioUnits`. -/
def fetchAppFolioUnits (ls : List RawListing) : List (JStr × ParsedUnit) :=
  ls.foldl
    (fun m l =>
      match listingEntry l with
      | none => m
      | some kv => mapSet m kv.1 kv.2)
    []

/-- The entry contributed by the last listing of `ls` that produces key `k`. -/
def lastVal (k : JStr) (ls : List RawListing) : Option ParsedUnit :=
  (((ls.filterMap listingEntry).filter (fun p => p.1 == k)).getLast?).map Prod.snd

/-- XML-parsed field values as xml2js yields them (`explicitArray: false`):
a plain text node, an element object (`_` text when present, `$.nil`
attribute flag), or an absent property. -/
inductive XVal
  | absent
  | str (s : JStr)
  | obj (text : Option JStr) (nilAttr : Bool)
deriving DecidableEq

/-- The `replace(/[^0-9.-]+/g, '')` strip of `convertNumber`. -/
def stripNonNumeric (s : JStr) : JStr :=
  s.filter (fun c => c.isDigit || decide (c = '.') || decide (c = '-'))

/-- Model of JS `parseFloat` on the stripped strings `convertNumber` builds:
optional sign, integer digits, optional fraction; `none` models NaN. -/
def parseFloatQ (s : JStr) : Option ℚ :=
  let signed : Bool × JStr :=
    match s with
    | '-' :: r => (true, r)
    | '+' :: r => (false, r)
    | r => (false, r)
  let intPart := signed.2.takeWhile Char.isDigit
  let rest2 := signed.2.drop intPart.length
  let fracPart : JStr :=
    match rest2 with
    | '.' :: r2 => r2.takeWhile Char.isDigit
    | _ => []
  if intPart.isEmpty && fracPart.isEmpty then none
  else
    let val : ℚ :=
      (digitsToNat intPart : ℚ) + (digitsToNat fracPart : ℚ) / ((10 : ℚ) ^ fracPart.length)
    some (if signed.1 then -val else val)

/-- Embedding of `convertNumber` (src/onsite/onSiteSync.js, lines 32-37):
extract `_` text when truthy, strip non-numeric characters from strings,
`parseFloat`, and return `null` (`none`) for NaN. -/
def convertNumber (v : XVal) : Option ℚ :=
  match v with
  | .absent => none
  | .str s => parseFloatQ (stripNonNumeric s)
  | .obj (some t) _ => if t = [] then none else parseFloatQ (stripNonNumeric t)
  | .obj none _ => none

/-- Embedding of `convertBoolean` (lines 38-41) on XML values:
`String(v).toLowerCase() === 'true'`. -/
def convertBoolean (v : XVal) : Bool :=
  match v with
  | .str s => jsToLower s == "true".data
  | .obj (some t) _ => if t = [] then false else jsToLower t == "true".data
  | .obj none _ => false
  | .absent => false

/-- `convertBoolean` applied to a JS boolean (the `avail.includes(...)` call
site): `String(b).toLowerCase() === 'true'` is `b` itself. -/
def convertBooleanB (b : Bool) : Bool :=
  (if b then "true".data else "false".data) == "true".data

/-- Embedding of `convertDate` (lines 42-47): `null` for falsy values and
nil-attributed elements, the ISO rendering for parseable dates, `null` for
invalid ones (the `isNaN` check precedes `toISOString`, so no throw). -/
def convertDate (v : XVal) : JVal :=
  match v with
  | .absent => .null
  | .str s =>
    if s = [] then .null
    else
      match jsNewDateToISO s with
      | some iso => .str iso
      | none => .null
  | .obj _ true => .null
  | .obj (some t) false =>
    if t = [] then .null
    else
      match jsNewDateToISO t with
      | some iso => .str iso
      | none => .null
  | .obj none false => .null

/-- Embedding of `roundUp` (src/onsite/onSiteSync.js line 54,
src/appfolio/appfolioSync.js line 44): `Math.ceil` on numbers, identity on
everything else. -/
def roundUp (v : JVal) : JVal :=
  match v with
  | .num q => .num ((⌈q⌉ : ℤ) : ℚ)
  | x => x

/-- A number-or-null JS value from an optional rational. -/
def numOrNull (o : Option ℚ) : JVal :=
  match o with
  | some q => .num q
  | none => .null

/-- One `<unit>` record of the On-Site units XML (the fields `updateUnits`
reads). -/
structure OnSiteUnit where
  apartmentNum : Option JStr := none
  availableDate : XVal := .absent
  effectiveRentAmount : XVal := .absent
  rentAmount : XVal := .absent
deriving DecidableEq

/-- A Webflow CMS item: opaque id and its field data. -/
structure StoreItem where
  id : JStr
  fieldData : List (JStr × JVal)
deriving DecidableEq

/-- The `newData` object literal of `updateUnits` (src/onsite/onSiteSync.js,
lines 212-217); `avail` is the lowercased available-unit number list, `num`
the unit's apartment number. -/
def onSiteNewData (avail : List (Option JStr)) (unit : OnSiteUnit) (num : JStr) :
    List (JStr × JVal) :=
  [("available-date".data, convertDate unit.availableDate),
   ("effective-rent-amount".data, roundUp (numOrNull (convertNumber unit.effectiveRentAmount))),
   ("original-rent-amount".data, roundUp (numOrNull (convertNumber unit.rentAmount))),
   ("show-online".data, .bool (convertBooleanB (avail.contains (some (jsToLower num)))))]

/-- Embedding of `updateWebflowItem` (src/onsite/onSiteSync.js, lines
160-183).  `resps` is the sequence of upstream responses for the successive
PATCH attempts of this one logical write: HTTP status and the parsed
Retry-After header (`none` when absent, in which case
`Number(r.headers.get('Retry-After') || 1)` gives the 1-second default).
Returns the seconds waited before each retry, and `.error ()` for the thrown
`PATCH <status>` error. -/
def updateWebflowItem (resps : List (Nat × Option Nat)) (retry : Nat) :
    List Nat × Except Unit Unit :=
  match resps with
  | [] => ([], .error ())
  | (status, retryAfter) :: rest =>
    if 200 ≤ status ∧ status < 300 then ([], .ok ())
    else if status = 429 ∧ retry ≠ 0 then
      let wait := retryAfter.getD 1
      let out := updateWebflowItem rest (retry - 1)
      (wait :: out.1, out.2)
    else ([], .error ())

/-- The observable actions of one reconciliation run against the store. -/
inductive Effect
  | patch (id : JStr) (waits : List Nat) (ok : Bool)
  | publish (siteId : JStr)
deriving DecidableEq

/-- Whether an effect is the publish action. -/
def isPublish : Effect → Bool
  | .publish _ => true
  | _ => false

/-- Number of publish actions in an effect list. -/
def countPublish (es : List Effect) : Nat := (es.filter isPublish).length

/-- Embedding of the unit loop of `updateUnits` (src/onsite/onSiteSync.js,
lines 202-222).  `resp` maps the ordinal of each PATCH issued in this run to
that call's upstream response sequence; `n` is the next ordinal.  A thrown
write error propagates out of the loop (there is no per-item catch), ending
the recursion. -/
def updateUnitsGo (resp : Nat → List (Nat × Option Nat)) (avail : List (Option JStr))
    (items : List StoreItem) :
    List OnSiteUnit → Nat → List Effect × Nat × Except Unit Unit
  | [], n => ([], n, .ok ())
  | unit :: rest, n =>
    match unit.apartmentNum with
    | none => updateUnitsGo resp avail items rest n
    | some num =>
      if num = [] then updateUnitsGo resp avail items rest n
      else
        match items.find? (fun i => jsGet i.fieldData ("slug".data) == JVal.str (generateSlug num)) with
        | none => updateUnitsGo resp avail items rest n
        | some item =>
          if logChanges item.fieldData (onSiteNewData avail unit num) = [] then
            updateUnitsGo resp avail items rest n
          else
            match updateWebflowItem (resp n) 3 with
            | (waits, .ok _) =>
              let out := updateUnitsGo resp avail items rest (n + 1)
              (.patch item.id waits true :: out.1, out.2)
            | (waits, .error e) =>
              ([.patch item.id waits false], n + 1, .error e)

/-- One `<unit-style>` record of the On-Site property XML. -/
structure Floorplan where
  styleId : XVal := .absent
  minRentF : XVal := .absent
  maxRentF : XVal := .absent
  numAvailable : XVal := .absent
deriving DecidableEq

/-- Embedding of `getStyleIdValue` (line 55): `_` text for objects, the value
itself otherwise. -/
def getStyleIdValue (f : XVal) : Option JStr :=
  match f with
  | .obj t _ => t
  | .str s => some s
  | .absent => none

/-- `String(getStyleIdValue(fp['style-id']) || '')`. -/
def styleIdStr (f : XVal) : JStr := (getStyleIdValue f).getD []

/-- Embedding of `parseRent` (lines 56-61): unwrap `_` text, objects
without text yield 0, otherwise `convertNumber` with 0 for null. -/
def parseRent (v : XVal) : ℚ :=
  match v with
  | .obj (some t) _ => if t = [] then 0 else (convertNumber (.str t)).getD 0
  | .obj none _ => 0
  | x => (convertNumber x).getD 0

/-- The `newData` object literal of `updateFloorPlans` (lines 230-234). -/
def floorPlanNewData (fp : Floorplan) : List (JStr × JVal) :=
  [("minimum-rent".data, .num (parseRent fp.minRentF)),
   ("maximum-rent".data, .num (parseRent fp.maxRentF)),
   ("available-units-count".data, .num ((convertNumber fp.numAvailable).getD 0))]

/-- Embedding of the floorplan loop of `updateFloorPlans` (lines 223-239). -/
def updateFloorPlansGo (resp : Nat → List (Nat × Option Nat)) (items : List StoreItem) :
    List Floorplan → Nat → List Effect × Nat × Except Unit Unit
  | [], n => ([], n, .ok ())
  | fp :: rest, n =>
    if styleIdStr fp.styleId = [] then updateFloorPlansGo resp items rest n
    else
      match items.find? (fun i => jsGet i.fieldData ("slug".data) == JVal.str (styleIdStr fp.styleId)) with
      | none => updateFloorPlansGo resp items rest n
      | some item =>
        if logChanges item.fieldData (floorPlanNewData fp) = [] then
          updateFloorPlansGo resp items rest n
        else
          match updateWebflowItem (resp n) 3 with
          | (waits, .ok _) =>
            let out := updateFloorPlansGo resp items rest (n + 1)
            (.patch item.id waits true :: out.1, out.2)
          | (waits, .error e) =>
            ([.patch item.id waits false], n + 1, .error e)

/-- One property as `fetchApartmentData` assembles it (the parts the write
phase reads). -/
structure Apartment where
  property : JStr
  allUnits : List OnSiteUnit := []
  availableUnits : List OnSiteUnit := []
  floorplans : List Floorplan := []
  siteId : JStr := []
deriving DecidableEq

/-- The `avail` list of `updateUnits`:
`(apartment.availableUnits || []).map(u => u['apartment-num']?.toLowerCase())`. -/
def availNums (a : Apartment) : List (Option JStr) :=
  a.availableUnits.map (fun u => u.apartmentNum.map jsToLower)

/-- `updateFloorPlans` begins with `if (apartment.property !== 'ALVERA') return`. -/
def updateFloorPlansRun (resp : Nat → List (Nat × Option Nat)) (a : Apartment)
    (items : List StoreItem) (n : Nat) : List Effect × Nat × Except Unit Unit :=
  if a.property = "ALVERA".data then updateFloorPlansGo resp items a.floorplans n
  else ([], n, .ok ())

/-- One iteration of the `updateWebflowCollections` loop (src/onsite/
onSiteSync.js, lines 269-285) for one property: update units, for ALVERA
also update floorplans, then publish once.  The store reads
(`fetchAllWebflowData`) are the given `items`/`fpItems`; a thrown write
error skips everything after it, publish included. -/
def runApartment (resp : Nat → List (Nat × Option Nat)) (a : Apartment)
    (items fpItems : List StoreItem) (n : Nat) : List Effect × Nat × Except Unit Unit :=
  match updateUnitsGo resp (availNums a) items a.allUnits n with
  | (es, n1, .error e) => (es, n1, .error e)
  | (es, n1, .ok _) =>
    if a.property = "ALVERA".data then
      match updateFloorPlansRun resp a fpItems n1 with
      | (es2, n2, .error e) => (es ++ es2, n2, .error e)
      | (es2, n2, .ok _) => (es ++ es2 ++ [.publish a.siteId], n2, .ok ())
    else (es ++ [.publish a.siteId], n1, .ok ())

/-- The `updateWebflowCollections` loop over the fetched properties: a
thrown error in one property's writes aborts the whole loop (only `main`
catches, outside the loop). -/
def updateWebflowCollections (resp : Nat → List (Nat × Option Nat)) :
    List (Apartment × List StoreItem × List StoreItem) → Nat →
      List Effect × Nat × Except Unit Unit
  | [], n => ([], n, .ok ())
  | (a, items, fpItems) :: rest, n =>
    match runApartment resp a items fpItems n with
    | (es, n1, .error e) => (es, n1, .error e)
    | (es, n1, .ok _) =>
      let out := updateWebflowCollections resp rest n1
      (es ++ out.1, out.2)

/-- `YES_NO` of framerSync.js (line 49). -/
def YES_NO (b : Bool) : JVal := .str (if b then "YES".data else "NO".data)

/-- One Framer CMS Data Sync item. -/
structure FramerItem where
  externalId : JStr
  slug : JStr
  fields : List (JStr × JVal)
  updatedAt : JStr
deriving DecidableEq

/-- Embedding of `buildFramerItems` (src/rentcafe/framerSync.js, lines
120-138).  Units are paired with their `_featured` flag (set by
`applyFeaturedFlags`); `sinceIso` drives the incremental filter. -/
def buildFramerItems (property : JStr) (units : List (CanonicalUnit × Bool))
    (sinceIso : Option JStr) (nowIso : JStr) : List FramerItem :=
  let items := units.map (fun uc =>
    ({ externalId := jsToLower property ++ "::unit::".data ++ uc.1.slug,
       slug := uc.1.slug,
       fields :=
        [("Available".data, YES_NO uc.1.available),
         ("Available Date".data, .str uc.1.availableDate),
         ("Minimum Rent".data, numOrNull uc.1.minRent),
         ("Maximum Rent".data, numOrNull uc.1.maxRent),
         ("Featured".data, YES_NO uc.2)],
       updatedAt := if uc.1.updatedAt = [] then nowIso else uc.1.updatedAt } : FramerItem))
  match sinceIso with
  | none => items
  | some s =>
    if s = [] then items
    else
      items.filter (fun i =>
        match jsDateParse i.updatedAt, jsDateParse s with
        | some a, some b => decide (b < a)
        | _, _ => false)

/-- An optional value ordered with `none` as +infinity (`x ?? Infinity`). -/
def optTop {α : Type} : Option α → WithTop α
  | some x => (x : WithTop α)
  | none => ⊤

/-- The date component of the featured comparator:
`a.availableDate ? Date.parse(a.availableDate) : Infinity`.  `none` stands
for +infinity; an unparseable non-empty date also maps to `none`, which is
faithful on the canonical units this pipeline produces (their
`availableDate` is empty or a parseable ISO string — the `DatesOk`
hypothesis below). -/
def dateKeyV (u : CanonicalUnit) : Option Int :=
  if u.availableDate = [] then none else jsDateParse u.availableDate

/-- The sort key of `applyFeaturedFlags`'s comparator (src/rentcafe/
framerSync.js, lines 107-114), as a lexicographic triple: ascending
`minRent` with null as +infinity, then ascending parsed `availableDate`
with missing as +infinity, then the slug (`localeCompare` modelled as
code-point lexicographic order, which agrees with it on the lowercase
alphanumeric slugs this pipeline produces). -/
def unitKey (u : CanonicalUnit) : (WithTop ℚ) ×ₗ (WithTop ℤ) ×ₗ (List Char) :=
  toLex (optTop u.minRent, toLex (optTop (dateKeyV u), u.slug))

/-- The element a stable sort by `unitKey` puts first: fold keeping the
current best, replacing it only on a strictly smaller key, so the earliest
minimal element wins — exactly `avail.sort(cmp)[0]` for V8's stable sort. -/
def pickBest : (Nat × CanonicalUnit) → List (Nat × CanonicalUnit) → Nat × CanonicalUnit
  | best, [] => best
  | best, p :: rest => pickBest (if unitKey p.2 < unitKey best.2 then p else best) rest

/-- The winning index of one unit-type group: among the units of that type
that are available (in input order, as the `byType` map's array is), the
first one minimal under `unitKey`; `none` when the group has no available
unit (`if (!avail.length) continue`). -/
def winnerIdx (units : List CanonicalUnit) (t : JStr) : Option Nat :=
  match units.enum.filter (fun p => p.2.unitType == t && p.2.available) with
  | [] => none
  | c :: cs => some (pickBest c cs).1

/-- The distinct non-empty unit types, the key set of the `byType` map. -/
def typeKeys (units : List CanonicalUnit) : List JStr :=
  ((units.filter (fun u => !u.unitType.isEmpty)).map (fun u => u.unitType)).dedup

/-- Embedding of `applyFeaturedFlags` (src/rentcafe/framerSync.js, lines
95-117) as the featured flag per position: position `i` is featured exactly
when it is the winning index of some unit-type group. -/
def applyFeaturedFlags (units : List CanonicalUnit) : List Bool :=
  units.enum.map (fun p => (typeKeys units).any (fun t => winnerIdx units t == some p.1))

/-- The domain on which the comparator model is exact: every unit's
`availableDate` is empty or parses to a timestamp (no NaN comparisons). -/
def DatesOk (units : List CanonicalUnit) : Prop :=
  ∀ u ∈ units, u.availableDate = [] ∨ (jsDateParse u.availableDate).isSome

/-- What claim C1 asserts of the featured flags `fs` computed for `units`:
the lengths agree; a featured position holds an available unit of non-empty
type that is minimal under the claimed order among the available units of
its type; and every non-empty type with at least one available unit has
exactly one featured position. -/
def FeaturedSpec (units : List CanonicalUnit) (fs : List Bool) : Prop :=
  fs.length = units.length ∧
    (∀ i u, (i, u) ∈ units.enum → fs.getD i false = true →
      u.available = true ∧ u.unitType ≠ [] ∧
      ∀ j v, (j, v) ∈ units.enum → v.unitType = u.unitType → v.available = true →
        unitKey u ≤ unitKey v) ∧
    ∀ t : JStr, t ≠ [] →
      (∃ j v, (j, v) ∈ units.enum ∧ v.unitType = t ∧ v.available = true) →
      ∃! i : Nat, fs.getD i false = true ∧ ∃ u, (i, u) ∈ units.enum ∧ u.unitType = t

/- ===================== theorems ===================== -/

/-- Helper: `Char.ofNat` round-trips on the ASCII range. -/
theorem charOfNat_toNat : ∀ n < 123, (Char.ofNat n).toNat = n := by decide

/-- Helper: what `lowerChar` does to the character code. -/
theorem lowerChar_toNat (c : Char) :
    (lowerChar c).toNat =
      if 65 ≤ c.toNat ∧ c.toNat ≤ 90 then c.toNat + 32 else c.toNat := by
  unfold lowerChar
  split
  · next h => exact charOfNat_toNat _ (by omega)
  · rfl

/-- Helper: `lowerChar` fixes characters outside the uppercase ASCII range. -/
theorem lowerChar_eq_self (c : Char) (h : ¬(65 ≤ c.toNat ∧ c.toNat ≤ 90)) :
    lowerChar c = c := by
  unfold lowerChar
  exact if_neg h

/-- Helper: the result of `lowerChar` is never an uppercase ASCII letter. -/
theorem lowerChar_not_upper (c : Char) :
    ¬(65 ≤ (lowerChar c).toNat ∧ (lowerChar c).toNat ≤ 90) := by
  rw [lowerChar_toNat]
  split
  · next h => omega
  · next h => exact h

/-- Helper: `lowerChar` is idempotent. -/
theorem lowerChar_idem (c : Char) : lowerChar (lowerChar c) = lowerChar c :=
  lowerChar_eq_self _ (lowerChar_not_upper c)

/-- Helper: lower-casing does not change whether a character is whitespace. -/
theorem isWs_lowerChar (c : Char) : isWs (lowerChar c) = isWs c := by
  by_cases h : 65 ≤ c.toNat ∧ c.toNat ≤ 90
  · have ht : (lowerChar c).toNat = c.toNat + 32 := by
      rw [lowerChar_toNat, if_pos h]
    unfold isWs
    rw [ht, Bool.eq_iff_iff]
    simp only [Bool.or_eq_true, decide_eq_true_eq]
    omega
  · rw [lowerChar_eq_self c h]

/-- C10: the Framer sync endpoints are fail-closed on authentication.  With an
empty or unset `FRAMER_SYNC_TOKEN` every request is rejected with 401 whatever
the Authorization header says, and a request is accepted exactly when it
carries `Bearer <token>` with the token equal to the non-empty configured
value. -/
theorem requireBearer_fail_closed (cfg : JStr) (h : Option JStr) :
    (cfg = [] → requireBearer cfg h = false) ∧
      (requireBearer cfg h = true ↔ cfg ≠ [] ∧ h = some ("Bearer ".data ++ cfg)) := by
  constructor
  · intro hc
    unfold requireBearer
    simp [hc]
  · unfold requireBearer
    constructor
    · intro hacc
      by_cases hc : cfg = []
      · simp [hc] at hacc
      · refine ⟨hc, ?_⟩
        by_cases hp : "Bearer ".data.isPrefixOf (h.getD []) = true
        · simp only [hp, if_true] at hacc
          have hd : (h.getD []).drop 7 = cfg := by
            by_contra hne
            simp [hne, hc] at hacc
          have hpre : "Bearer ".data <+: (h.getD []) :=
            List.isPrefixOf_iff_prefix.mp hp
          have heq : "Bearer ".data ++ ((h.getD []).drop 7) = h.getD [] := by
            have := List.prefix_iff_eq_append.mp hpre
            simpa using this
          cases h with
          | none =>
            exfalso
            rw [hd] at heq
            simp only [Option.getD_none] at heq
            exact hc (by
              have : ("Bearer ".data ++ cfg).length = 0 := by rw [heq]; rfl
              simpa using List.eq_nil_of_length_eq_zero (by
                have hlen := this
                simp at hlen))
          | some a =>
            simp only [Option.getD_some] at hd heq
            rw [hd] at heq
            exact congrArg some heq.symm
        · exfalso
          simp only [Bool.not_eq_true] at hp
          simp [hp, hc] at hacc
    · rintro ⟨hc, rfl⟩
      have hp : "Bearer ".data.isPrefixOf ("Bearer ".data ++ cfg) = true :=
        List.isPrefixOf_iff_prefix.mpr ⟨cfg, rfl⟩
      have h7 : ("Bearer ".data).length = 7 := rfl
      have hd : ("Bearer ".data ++ cfg).drop 7 = cfg := h7 ▸ List.drop_left _ _
      simp [hp, hd, hc]

/-- C10 witness: concrete instances — empty config rejects even a well-formed
header, and a matching bearer token on a non-empty config is accepted. -/
theorem requireBearer_fail_closed_witness :
    requireBearer [] (some ("Bearer x".data)) = false ∧
      requireBearer "tok".data (some ("Bearer tok".data)) = true :=
  ⟨(requireBearer_fail_closed [] (some ("Bearer x".data))).1 rfl,
    (requireBearer_fail_closed "tok".data (some ("Bearer tok".data))).2.mpr
      (by constructor <;> decide)⟩

/-- C6 (code bug): the US-date parser maps `03/05/2025` to the UTC-midnight
ISO string and maps the empty input to the empty string, but it does NOT
hold that it never throws: on `13/13/2025` (three non-empty parts forming an
invalid date) the JS code reaches `new Date("2025-13-13T00:00:00Z").toISOString()`,
which throws a RangeError — modelled by `.error ()`. -/
theorem parseUsDateToISO_behavior :
    parseUsDateToISO "03/05/2025".data = .ok "2025-03-05T00:00:00.000Z".data ∧
      parseUsDateToISO [] = .ok [] ∧
      parseUsDateToISO "13/13/2025".data = .error () := by
  exact ⟨rfl, rfl, rfl⟩

/-- Helper: the head of `dropWhile p l` does not satisfy `p`. -/
theorem dropWhile_head_false (p : Char → Bool) (l : JStr) :
    ∀ c, (l.dropWhile p).head? = some c → p c = false := by
  induction l with
  | nil => intro c h; simp at h
  | cons a r ih =>
    intro c h
    rw [List.dropWhile_cons] at h
    split at h
    · exact ih c h
    · next hpa =>
      simp only [List.head?_cons, Option.some.injEq] at h
      subst h
      simpa using hpa

/-- Helper: `dropWhile` removes a prefix. -/
theorem exists_dropWhile_prefix (p : Char → Bool) (l : JStr) :
    ∃ t, l = t ++ l.dropWhile p := by
  induction l with
  | nil => exact ⟨[], rfl⟩
  | cons a r ih =>
    rw [List.dropWhile_cons]
    split
    · obtain ⟨t, ht⟩ := ih
      exact ⟨a :: t, by rw [List.cons_append, ← ht]⟩
    · exact ⟨[], rfl⟩

/-- Helper: a trimmed string has no leading whitespace. -/
theorem jsTrim_head_not_ws (x : JStr) :
    ∀ c, (jsTrim x).head? = some c → isWs c = false := by
  intro c h
  unfold jsTrim at h
  rw [List.head?_reverse] at h
  obtain ⟨t, ht⟩ := exists_dropWhile_prefix isWs (x.dropWhile isWs).reverse
  have h2 : ((x.dropWhile isWs).reverse).getLast? = some c := by
    rw [ht, List.getLast?_append, h, Option.or_some]
  rw [List.getLast?_reverse] at h2
  exact dropWhile_head_false isWs x c h2

/-- Helper: a trimmed string has no trailing whitespace. -/
theorem jsTrim_getLast_not_ws (x : JStr) :
    ∀ c, (jsTrim x).getLast? = some c → isWs c = false := by
  intro c h
  unfold jsTrim at h
  rw [List.getLast?_reverse] at h
  exact dropWhile_head_false isWs _ c h

/-- Helper: the computed slug `jsToLower (jsTrim x)` has no boundary
whitespace and no uppercase ASCII letter. -/
theorem slug_shape (x : JStr) :
    (∀ c, (jsToLower (jsTrim x)).head? = some c → isWs c = false) ∧
      (∀ c, (jsToLower (jsTrim x)).getLast? = some c → isWs c = false) ∧
      ∀ c ∈ jsToLower (jsTrim x), ¬(65 ≤ c.toNat ∧ c.toNat ≤ 90) := by
  refine ⟨?_, ?_, ?_⟩
  · intro c h
    unfold jsToLower at h
    rw [List.head?_map] at h
    cases hh : (jsTrim x).head? with
    | none => rw [hh] at h; simp at h
    | some d =>
      rw [hh] at h
      simp only [Option.map_some'] at h
      obtain rfl : lowerChar d = c := by injection h
      rw [isWs_lowerChar]
      exact jsTrim_head_not_ws x d hh
  · intro c h
    unfold jsToLower at h
    rw [List.getLast?_map] at h
    cases hh : (jsTrim x).getLast? with
    | none => rw [hh] at h; simp at h
    | some d =>
      rw [hh] at h
      simp only [Option.map_some'] at h
      obtain rfl : lowerChar d = c := by injection h
      rw [isWs_lowerChar]
      exact jsTrim_getLast_not_ws x d hh
  · intro c hc
    unfold jsToLower at hc
    obtain ⟨d, _, rfl⟩ := List.mem_map.mp hc
    exact lowerChar_not_upper d

/-- Helper: a successful `normalizeUnit` yields the computed slug. -/
theorem normalizeUnit_ok_slug (nowIso : JStr) (u : RawUnit) (cu : CanonicalUnit)
    (h : normalizeUnit nowIso u = .ok cu) :
    cu.slug = jsToLower (jsTrim (identOf u)) := by
  unfold normalizeUnit at h
  split at h
  · exact absurd h (by simp)
  · injection h with h'
    rw [← h']

/-- Helper: a successful `normalizeList` relates records and units pointwise. -/
theorem normalizeList_ok_forall₂ (nowIso : JStr) :
    ∀ (l : List RawUnit) (res : List CanonicalUnit),
      normalizeList nowIso l = .ok res →
      List.Forall₂ (fun u cu => normalizeUnit nowIso u = .ok cu) l res := by
  intro l
  induction l with
  | nil =>
    intro res h
    unfold normalizeList at h
    injection h with h'
    rw [← h']
    exact List.Forall₂.nil
  | cons u r ih =>
    intro res h
    unfold normalizeList at h
    cases hu : normalizeUnit nowIso u with
    | error e => rw [hu] at h; exact absurd h (by simp)
    | ok cu =>
      rw [hu] at h
      cases hr : normalizeList nowIso r with
      | error e => rw [hr] at h; exact absurd h (by simp)
      | ok rest =>
        rw [hr] at h
        injection h with h'
        rw [← h']
        exact List.Forall₂.cons hu (ih rest hr)

/-- Helper: filtering related lists by pointwise-equivalent predicates keeps
the same length. -/
theorem forall₂_filter_length {α β : Type} (R : α → β → Prop)
    (p : α → Bool) (q : β → Bool)
    (hpq : ∀ a b, R a b → p a = q b) :
    ∀ (l₁ : List α) (l₂ : List β), List.Forall₂ R l₁ l₂ →
      (l₁.filter p).length = (l₂.filter q).length := by
  intro l₁ l₂ h
  induction h with
  | nil => rfl
  | @cons a b r₁ r₂ hab _ ih =>
    rw [List.filter_cons, List.filter_cons, hpq a b hab]
    split
    · simpa using ih
    · exact ih

/-- C5: the normalized `available` flag follows exactly the claimed formula —
lowercased status containing "vacant unrented" or "notice unrented", or
containing "vacant" without "rented", or equal to "available", or a positive
minimum rent; in particular "Vacant Unrented" is available and
"Vacant Rented" is not. -/
theorem available_flag_semantics :
    (∀ u : RawUnit, availableOf u = specAvailable u.unitStatus u.minimumRent) ∧
      availableOf { unitStatus := some ("Vacant Unrented".data) } = true ∧
      availableOf { unitStatus := some ("Vacant Rented".data) } = false := by
  refine ⟨?_, by decide, by decide⟩
  intro u
  unfold availableOf isAvailableStatus specAvailable
  by_cases hs : jsToLower (u.unitStatus.getD []) = []
  · rw [if_pos hs, hs]
    have e1 : containsSub "vacant unrented".data [] = false := rfl
    have e2 : containsSub "notice unrented".data [] = false := rfl
    have e3 : containsSub "vacant".data [] = false := rfl
    have e5 : (([] : JStr) == "available".data) = false := rfl
    rw [e1, e2, e3, e5]
    simp
  · rw [if_neg hs]

/-- Helper: a `Forall₂` witness for a member of the right list. -/
theorem forall₂_mem_right {α β : Type} {R : α → β → Prop} :
    ∀ {l₁ : List α} {l₂ : List β}, List.Forall₂ R l₁ l₂ →
      ∀ {b : β}, b ∈ l₂ → ∃ a ∈ l₁, R a b := by
  intro l₁ l₂ h
  induction h with
  | nil => intro b hb; simp at hb
  | @cons a b r₁ r₂ hab _ ih =>
    intro c hc
    rcases List.mem_cons.mp hc with rfl | hc'
    · exact ⟨a, List.mem_cons_self a r₁, hab⟩
    · obtain ⟨a', ha', hr⟩ := ih hc'
      exact ⟨a', List.mem_cons_of_mem a ha', hr⟩

/-- C9 counterexample: a record with no identifier field is NOT always
silently excluded — when it carries a malformed `availableDate`
(`02/30/2025`), normalization throws (the claim demands `.ok []` here). -/
theorem normalize_missing_ident_can_throw :
    normalizeRentCafeUnits [] []
        { apartmentAvailabilities :=
            some [{ availableDate := some ("02/30/2025".data) }] } =
      .error () := rfl

/-- C9 (amended): `normalize([{unitStatus:"Available"}]) = []`, and whenever
normalization completes without throwing, records with an empty computed slug
are silently excluded (the output length is the number of records with a
non-empty slug) and every output slug is non-empty, trimmed (no boundary
whitespace) and lowercase (no uppercase ASCII letter).  The amendment: a
record with a missing identifier but a malformed `availableDate` makes
normalization throw instead of being silently excluded. -/
theorem normalize_slug_discipline :
    (normalizeRentCafeUnits [] []
        { apartmentAvailabilities := some [{ unitStatus := some ("Available".data) }] } =
      .ok []) ∧
      (∀ (nowIso property : JStr) (raw : RawResponse) (res : List CanonicalUnit),
        normalizeRentCafeUnits nowIso property raw = .ok res →
          (∀ u ∈ res, u.slug ≠ [] ∧
            (∀ c, u.slug.head? = some c → isWs c = false) ∧
            (∀ c, u.slug.getLast? = some c → isWs c = false) ∧
            (∀ c ∈ u.slug, ¬(65 ≤ c.toNat ∧ c.toNat ≤ 90))) ∧
          res.length = goodSlugCount (rawList raw)) := by
  refine ⟨rfl, ?_⟩
  intro nowIso property raw res h
  unfold normalizeRentCafeUnits at h
  cases hn : normalizeList nowIso (rawList raw) with
  | error e => rw [hn] at h; exact absurd h (by simp)
  | ok l =>
    rw [hn] at h
    injection h with h'
    subst h'
    have hf := normalizeList_ok_forall₂ nowIso (rawList raw) l hn
    constructor
    · intro u hu
      have hmem := List.mem_filter.mp hu
      obtain ⟨r, _, hr⟩ := forall₂_mem_right hf hmem.1
      have hslug := normalizeUnit_ok_slug nowIso r u hr
      have hne : u.slug ≠ [] := by
        have := hmem.2
        simpa [List.isEmpty_iff] using this
      obtain ⟨s1, s2, s3⟩ := slug_shape (identOf r)
      rw [← hslug] at s1 s2 s3
      exact ⟨hne, s1, s2, s3⟩
    · unfold goodSlugCount
      exact (forall₂_filter_length _ _ _
        (fun r cu hr => by rw [← normalizeUnit_ok_slug nowIso r cu hr])
        (rawList raw) l hf).symm

/-- C7 counterexample: the RentCafe normalization does not deduplicate — two
raw records whose identifiers normalize to the same slug (`"A "` and `"a"`)
both survive, so the output slugs are not pairwise distinct and the output
does not keep exactly one unit per slug. -/
theorem normalizeRentCafe_duplicate_slugs :
    Except.map (List.map CanonicalUnit.slug)
        (normalizeRentCafeUnits [] []
          { apartmentAvailabilities :=
              some [{ apartmentName := some ("A ".data) },
                { apartmentName := some ("a".data) }] }) =
      .ok ["a".data, "a".data] := rfl

/-- Helper: decimal digits produced by `digitsRevAux` are below 10. -/
theorem digitsRevAux_lt10 : ∀ fuel n, ∀ d ∈ digitsRevAux fuel n, d < 10 := by
  intro fuel
  induction fuel with
  | zero => intro n d hd; simp [digitsRevAux] at hd
  | succ f ih =>
    intro n d hd
    cases n with
    | zero => simp [digitsRevAux] at hd
    | succ m =>
      rw [digitsRevAux] at hd
      rcases List.mem_cons.mp hd with rfl | hd'
      · exact Nat.mod_lt _ (by norm_num)
      · exact ih _ d hd'

/-- Helper: `digitsRevAux` reconstructs its input. -/
theorem digitsRevAux_reconstruct : ∀ fuel n, n ≤ fuel →
    fromDigits (digitsRevAux fuel n) = n := by
  intro fuel
  induction fuel with
  | zero =>
    intro n h
    have : n = 0 := Nat.le_zero.mp h
    subst this
    rfl
  | succ f ih =>
    intro n h
    cases n with
    | zero => rfl
    | succ m =>
      have hdiv : (m + 1) / 10 ≤ f := by
        have h1 : (m + 1) / 10 < m + 1 := Nat.div_lt_self (Nat.succ_pos m) (by norm_num)
        omega
      rw [digitsRevAux, fromDigits, ih _ hdiv]
      exact Nat.mod_add_div (m + 1) 10

/-- Helper: digit rendering is injective below 10. -/
theorem digitChar_inj10 : ∀ a < 10, ∀ b < 10, Nat.digitChar a = Nat.digitChar b → a = b := by
  decide

/-- Helper: digit characters lie in the ASCII range 48–57. -/
theorem digitChar_range : ∀ d < 10, 48 ≤ (Nat.digitChar d).toNat ∧ (Nat.digitChar d).toNat ≤ 57 := by
  decide

/-- Helper: mapping `Nat.digitChar` over digit lists is injective. -/
theorem map_digitChar_inj : ∀ l1 l2 : List Nat, (∀ d ∈ l1, d < 10) → (∀ d ∈ l2, d < 10) →
    l1.map Nat.digitChar = l2.map Nat.digitChar → l1 = l2 := by
  intro l1
  induction l1 with
  | nil =>
    intro l2 _ _ h
    cases l2 with
    | nil => rfl
    | cons b r2 => simp at h
  | cons a r ih =>
    intro l2 h1 h2 h
    cases l2 with
    | nil => simp at h
    | cons b r2 =>
      simp only [List.map_cons, List.cons.injEq] at h
      have hab := digitChar_inj10 a (h1 a (List.mem_cons_self a r)) b
        (h2 b (List.mem_cons_self b r2)) h.1
      have hr := ih r2 (fun d hd => h1 d (List.mem_cons_of_mem a hd))
        (fun d hd => h2 d (List.mem_cons_of_mem b hd)) h.2
      rw [hab, hr]

/-- Helper: `natStr` is injective. -/
theorem natStr_inj {a b : Nat} (h : natStr a = natStr b) : a = b := by
  unfold natStr at h
  have h1 := List.reverse_injective h
  have h2 := map_digitChar_inj _ _ (digitsRevAux_lt10 a a) (digitsRevAux_lt10 b b) h1
  have h3 := congrArg fromDigits h2
  unfold natDigitsNum at h3
  rw [digitsRevAux_reconstruct a a le_rfl, digitsRevAux_reconstruct b b le_rfl] at h3
  exact h3

/-- Helper: every character of `natStr` is a decimal digit. -/
theorem natStr_mem_digit {n : Nat} {c : Char} (hc : c ∈ natStr n) :
    48 ≤ c.toNat ∧ c.toNat ≤ 57 := by
  unfold natStr at hc
  rw [List.mem_reverse] at hc
  obtain ⟨d, hd, rfl⟩ := List.mem_map.mp hc
  exact digitChar_range d (digitsRevAux_lt10 n n d hd)

/-- Helper: characters of `intStr` are a minus sign or digits. -/
theorem intStr_mem {i : Int} {c : Char} (hc : c ∈ intStr i) :
    c.toNat = 45 ∨ (48 ≤ c.toNat ∧ c.toNat ≤ 57) := by
  unfold intStr at hc
  split at hc
  · rcases List.mem_cons.mp hc with rfl | hc'
    · exact Or.inl rfl
    · exact Or.inr (natStr_mem_digit hc')
  · exact Or.inr (natStr_mem_digit hc)

/-- Helper: characters of `renderNum` are a minus sign, a slash or digits. -/
theorem renderNum_mem {q : ℚ} {c : Char} (hc : c ∈ renderNum q) :
    c.toNat = 45 ∨ c.toNat = 47 ∨ (48 ≤ c.toNat ∧ c.toNat ≤ 57) := by
  unfold renderNum at hc
  rcases List.mem_append.mp hc with h | h
  · rcases intStr_mem h with h' | h'
    · exact Or.inl h'
    · exact Or.inr (Or.inr h')
  · rcases List.mem_cons.mp h with rfl | h'
    · exact Or.inr (Or.inl rfl)
    · exact Or.inr (Or.inr (natStr_mem_digit h'))

/-- Helper: `intStr` is injective. -/
theorem intStr_inj {i j : Int} (h : intStr i = intStr j) : i = j := by
  unfold intStr at h
  by_cases hi : i < 0 <;> by_cases hj : j < 0
  · rw [if_pos hi, if_pos hj] at h
    have h' : natStr i.natAbs = natStr j.natAbs := by injection h
    have := natStr_inj h'
    omega
  · rw [if_pos hi, if_neg hj] at h
    have hm : ('-' : Char) ∈ natStr j.natAbs := h ▸ List.mem_cons_self '-' _
    have := natStr_mem_digit hm
    have h45 : ('-' : Char).toNat = 45 := rfl
    omega
  · rw [if_neg hi, if_pos hj] at h
    have hm : ('-' : Char) ∈ natStr i.natAbs := h.symm ▸ List.mem_cons_self '-' _
    have := natStr_mem_digit hm
    have h45 : ('-' : Char).toNat = 45 := rfl
    omega
  · rw [if_neg hi, if_neg hj] at h
    have := natStr_inj h
    omega

/-- Helper: splitting at an excluded separator is unambiguous. -/
theorem append_slash_inj : ∀ s1 s2 t1 t2 : JStr, ('/' ∉ s1) → ('/' ∉ s2) →
    s1 ++ '/' :: t1 = s2 ++ '/' :: t2 → s1 = s2 ∧ t1 = t2 := by
  intro s1
  induction s1 with
  | nil =>
    intro s2 t1 t2 _ h2 h
    cases s2 with
    | nil =>
      simp only [List.nil_append, List.cons.injEq] at h
      exact ⟨rfl, h.2⟩
    | cons b r2 =>
      simp only [List.nil_append, List.cons_append, List.cons.injEq] at h
      exact absurd (h.1 ▸ List.mem_cons_self b r2) h2
  | cons a r ih =>
    intro s2 t1 t2 h1 h2 h
    cases s2 with
    | nil =>
      simp only [List.cons_append, List.nil_append, List.cons.injEq] at h
      exact absurd (h.1 ▸ List.mem_cons_self a r) h1
    | cons b r2 =>
      simp only [List.cons_append, List.cons.injEq] at h
      obtain ⟨rfl, h'⟩ := h
      have hr := ih r2 t1 t2 (fun hc => h1 (List.mem_cons_of_mem a hc))
        (fun hc => h2 (List.mem_cons_of_mem a hc)) h'
      exact ⟨by rw [hr.1], hr.2⟩

/-- Helper: `renderNum` is injective — stringify-equality of numbers is
numeric equality. -/
theorem renderNum_inj {p q : ℚ} (h : renderNum p = renderNum q) : p = q := by
  unfold renderNum at h
  have hs1 : ('/' : Char) ∉ intStr p.num := by
    intro hc
    have h47 : ('/' : Char).toNat = 47 := rfl
    rcases intStr_mem hc with h' | h' <;> omega
  have hs2 : ('/' : Char) ∉ intStr q.num := by
    intro hc
    have h47 : ('/' : Char).toNat = 47 := rfl
    rcases intStr_mem hc with h' | h' <;> omega
  obtain ⟨hnum, hden⟩ := append_slash_inj _ _ _ _ hs1 hs2 h
  exact Rat.ext (intStr_inj hnum) (natStr_inj hden)

/-- Helper: JSON string escaping is injective (it is a prefix code). -/
theorem escape_inj : ∀ s1 s2 : JStr, escape s1 = escape s2 → s1 = s2 := by
  intro s1
  induction s1 with
  | nil =>
    intro s2 h
    cases s2 with
    | nil => rfl
    | cons b r2 =>
      exfalso
      rw [escape, escape, List.flatMap_nil, List.flatMap_cons] at h
      unfold escChar at h
      split at h <;> simp at h
  | cons a r ih =>
    intro s2 h
    cases s2 with
    | nil =>
      exfalso
      rw [escape, escape, List.flatMap_nil, List.flatMap_cons] at h
      unfold escChar at h
      split at h <;> simp at h
    | cons b r2 =>
      rw [escape, escape, List.flatMap_cons, List.flatMap_cons] at h
      by_cases ha : a = '"' ∨ a = '\\' <;> by_cases hb : b = '"' ∨ b = '\\'
      · rw [escChar, if_pos ha, escChar, if_pos hb] at h
        simp only [List.cons_append, List.nil_append, List.cons.injEq] at h
        obtain ⟨_, rfl, h'⟩ := h
        rw [ih r2 h']
      · rw [escChar, if_pos ha, escChar, if_neg hb] at h
        simp only [List.cons_append, List.nil_append, List.cons.injEq] at h
        exact absurd (Or.inr h.1.symm) hb
      · rw [escChar, if_neg ha, escChar, if_pos hb] at h
        simp only [List.cons_append, List.nil_append, List.cons.injEq] at h
        exact absurd (Or.inr h.1) ha
      · rw [escChar, if_neg ha, escChar, if_neg hb] at h
        simp only [List.cons_append, List.nil_append, List.cons.injEq] at h
        obtain ⟨rfl, h'⟩ := h
        rw [ih r2 h']

/-- Helper: `jsonStr` is injective — on the primitive JSON values the sync
jobs move, stringify-equality coincides with deep value equality. -/
theorem jsonStr_injective : ∀ a b : JVal, jsonStr a = jsonStr b → a = b := by
  have hn : ('n' : Char).toNat = 110 := rfl
  have hq : ('"' : Char).toNat = 34 := rfl
  have ht : ('t' : Char).toNat = 116 := rfl
  have hf : ('f' : Char).toNat = 102 := rfl
  intro a b h
  cases a with
  | undefv => cases b <;> simp_all [jsonStr]
  | null =>
    cases b with
    | undefv => simp [jsonStr] at h
    | null => rfl
    | bool b' =>
      exfalso
      cases b' <;> simp [jsonStr] at h
    | num q =>
      exfalso
      simp only [jsonStr, Option.some.injEq] at h
      have : ('n' : Char) ∈ renderNum q := h ▸ List.mem_cons_self 'n' _
      rcases renderNum_mem this with h' | h' | h' <;> omega
    | str s =>
      exfalso
      simp only [jsonStr, Option.some.injEq] at h
      have := List.head_eq_of_cons_eq h
      have h34 : ('n' : Char) = '"' := this
      have := congrArg Char.toNat h34
      omega
  | bool a' =>
    cases b with
    | undefv => simp [jsonStr] at h
    | null =>
      exfalso
      cases a' <;> simp [jsonStr] at h
    | bool b' => cases a' <;> cases b' <;> simp_all [jsonStr]
    | num q =>
      exfalso
      simp only [jsonStr, Option.some.injEq] at h
      cases a' with
      | true =>
        rw [if_pos rfl] at h
        have : ('t' : Char) ∈ renderNum q := h ▸ List.mem_cons_self 't' _
        rcases renderNum_mem this with h' | h' | h' <;> omega
      | false =>
        rw [if_neg (by decide)] at h
        have : ('f' : Char) ∈ renderNum q := h ▸ List.mem_cons_self 'f' _
        rcases renderNum_mem this with h' | h' | h' <;> omega
    | str s =>
      exfalso
      simp only [jsonStr, Option.some.injEq] at h
      cases a' with
      | true =>
        rw [if_pos rfl] at h
        have h34 : ('t' : Char) = '"' := List.head_eq_of_cons_eq h
        have := congrArg Char.toNat h34
        omega
      | false =>
        rw [if_neg (by decide)] at h
        have h34 : ('f' : Char) = '"' := List.head_eq_of_cons_eq h
        have := congrArg Char.toNat h34
        omega
  | num p =>
    cases b with
    | undefv => simp [jsonStr] at h
    | null =>
      exfalso
      simp only [jsonStr, Option.some.injEq] at h
      have : ('n' : Char) ∈ renderNum p := h.symm ▸ List.mem_cons_self 'n' _
      rcases renderNum_mem this with h' | h' | h' <;> omega
    | bool b' =>
      exfalso
      simp only [jsonStr, Option.some.injEq] at h
      cases b' with
      | true =>
        rw [if_pos rfl] at h
        have : ('t' : Char) ∈ renderNum p := h.symm ▸ List.mem_cons_self 't' _
        rcases renderNum_mem this with h' | h' | h' <;> omega
      | false =>
        rw [if_neg (by decide)] at h
        have : ('f' : Char) ∈ renderNum p := h.symm ▸ List.mem_cons_self 'f' _
        rcases renderNum_mem this with h' | h' | h' <;> omega
    | num q =>
      simp only [jsonStr, Option.some.injEq] at h
      rw [renderNum_inj h]
    | str s =>
      exfalso
      simp only [jsonStr, Option.some.injEq] at h
      have : ('"' : Char) ∈ renderNum p := h.symm ▸ List.mem_cons_self '"' _
      rcases renderNum_mem this with h' | h' | h' <;> omega
  | str sa =>
    cases b with
    | undefv => simp [jsonStr] at h
    | null =>
      exfalso
      simp only [jsonStr, Option.some.injEq] at h
      have h34 : ('"' : Char) = 'n' := List.head_eq_of_cons_eq h
      have := congrArg Char.toNat h34
      omega
    | bool b' =>
      exfalso
      simp only [jsonStr, Option.some.injEq] at h
      cases b' with
      | true =>
        rw [if_pos rfl] at h
        have h34 : ('"' : Char) = 't' := List.head_eq_of_cons_eq h
        have := congrArg Char.toNat h34
        omega
      | false =>
        rw [if_neg (by decide)] at h
        have h34 : ('"' : Char) = 'f' := List.head_eq_of_cons_eq h
        have := congrArg Char.toNat h34
        omega
    | num q =>
      exfalso
      simp only [jsonStr, Option.some.injEq] at h
      have : ('"' : Char) ∈ renderNum q := h ▸ List.mem_cons_self '"' _
      rcases renderNum_mem this with h' | h' | h' <;> omega
    | str sb =>
      simp only [jsonStr, Option.some.injEq, List.cons.injEq, true_and] at h
      have := List.append_cancel_right h
      rw [escape_inj sa sb this]

/-- Helper: `changeEntry` when the stringified values differ. -/
theorem changeEntry_pos (oldData : List (JStr × JVal)) (kv : JStr × JVal)
    (h : jsonStr (jsGet oldData kv.1) ≠ jsonStr kv.2) :
    changeEntry oldData kv = some (kv.1, jsGet oldData kv.1, kv.2) := by
  unfold changeEntry
  rw [if_pos h]

/-- Helper: `changeEntry` when the stringified values agree. -/
theorem changeEntry_neg (oldData : List (JStr × JVal)) (kv : JStr × JVal)
    (h : ¬jsonStr (jsGet oldData kv.1) ≠ jsonStr kv.2) :
    changeEntry oldData kv = none := by
  unfold changeEntry
  rw [if_neg h]

/-- Helper: `logChanges` as a filterMap over the new data. -/
theorem logChanges_eq_filterMap (oldData newData : List (JStr × JVal)) :
    logChanges oldData newData = newData.filterMap (changeEntry oldData) := by
  suffices hgen : ∀ (l : List (JStr × JVal)) (acc : List (JStr × JVal × JVal)),
      l.foldl
        (fun arr kv =>
          if jsonStr (jsGet oldData kv.1) ≠ jsonStr kv.2 then
            arr ++ [(kv.1, jsGet oldData kv.1, kv.2)]
          else arr)
        acc = acc ++ l.filterMap (changeEntry oldData) by
    have := hgen newData []
    simpa [logChanges] using this
  intro l
  induction l with
  | nil => intro acc; simp
  | cons kv r ih =>
    intro acc
    rw [List.foldl_cons, List.filterMap_cons]
    by_cases hc : jsonStr (jsGet oldData kv.1) ≠ jsonStr kv.2
    · rw [if_pos hc, ih, changeEntry_pos oldData kv hc]
      simp
    · rw [if_neg hc, ih, changeEntry_neg oldData kv hc]

/-- C2 (amended): a field is included in the changeset if and only if the
`JSON.stringify` forms of the store's current value and the new value differ
— which on these primitive values coincides with deep JSON value equality
(first conjunct: stringify is injective).  The claimed special case is false:
an old `''` versus a new `null` on a date field IS emitted as a change (see
the counterexample theorem). -/
theorem logChanges_iff :
    (∀ a b : JVal, jsonStr a = jsonStr b ↔ a = b) ∧
      ∀ (oldData newData : List (JStr × JVal)) (k : JStr) (o n : JVal),
        (k, o, n) ∈ logChanges oldData newData ↔
          ((k, n) ∈ newData ∧ o = jsGet oldData k ∧ jsonStr o ≠ jsonStr n) := by
  constructor
  · intro a b
    exact ⟨jsonStr_injective a b, fun h => by rw [h]⟩
  · intro oldData newData k o n
    rw [logChanges_eq_filterMap, List.mem_filterMap]
    constructor
    · rintro ⟨kv, hkv, hce⟩
      by_cases hne : jsonStr (jsGet oldData kv.1) ≠ jsonStr kv.2
      · rw [changeEntry_pos oldData kv hne] at hce
        injection hce with hce'
        have h3 : kv.1 = k ∧ jsGet oldData kv.1 = o ∧ kv.2 = n := by
          simpa [Prod.ext_iff] using hce'
        obtain ⟨rfl, rfl, rfl⟩ := h3
        exact ⟨hkv, rfl, hne⟩
      · rw [changeEntry_neg oldData kv hne] at hce
        exact absurd hce (by simp)
    · rintro ⟨hmem, rfl, hne⟩
      refine ⟨(k, n), hmem, ?_⟩
      unfold changeEntry
      rw [if_pos hne]

/-- C2 counterexample: for the date field, an old empty string against a new
`null` (both falsy) IS reported as a change by `logChanges` — `'""'` and
`'null'` stringify differently — contradicting the claimed special case that
no change is emitted. -/
theorem date_falsy_pair_is_emitted :
    logChanges [("available-date".data, JVal.str [])]
        [("available-date".data, JVal.null)] =
      [("available-date".data, JVal.str [], JVal.null)] := rfl

/-- Helper: `getLast?` of a cons as an `Option.or`. -/
theorem getLast?_cons_or {α : Type} (x : α) (xs : List α) :
    (x :: xs).getLast? = xs.getLast?.or (some x) := by
  rw [List.getLast?_cons]
  cases xs.getLast? <;> rfl

/-- Helper: setting an existing key leaves the key list unchanged. -/
theorem mapSet_keys_of_any (m : List (JStr × ParsedUnit)) (k : JStr) (v : ParsedUnit)
    (h : m.any (fun p => p.1 == k) = true) :
    (mapSet m k v).map Prod.fst = m.map Prod.fst := by
  unfold mapSet
  rw [if_pos h, List.map_map]
  refine List.map_congr_left ?_
  intro p _
  by_cases hp : (p.1 == k) = true
  · have := eq_of_beq hp
    simp [hp, Function.comp, this]
  · simp [hp, Function.comp]

/-- Helper: `mapSet` preserves distinctness of keys. -/
theorem mapSet_nodup (m : List (JStr × ParsedUnit)) (k : JStr) (v : ParsedUnit)
    (h : (m.map Prod.fst).Nodup) : ((mapSet m k v).map Prod.fst).Nodup := by
  by_cases hany : m.any (fun p => p.1 == k) = true
  · rw [mapSet_keys_of_any m k v hany]
    exact h
  · unfold mapSet
    rw [if_neg hany, List.map_append, List.nodup_append]
    refine ⟨h, by simp, ?_⟩
    intro a ha hb
    simp only [List.map_cons, List.map_nil, List.mem_singleton] at hb
    subst hb
    obtain ⟨q, hq, hqk⟩ := List.mem_map.mp ha
    exact hany (List.any_eq_true.mpr ⟨q, hq, by simp [hqk]⟩)

/-- Helper: looking up the key just set yields the new value. -/
theorem mapLookup_mapSet_self (m : List (JStr × ParsedUnit)) (k : JStr) (v : ParsedUnit) :
    mapLookup (mapSet m k v) k = some v := by
  unfold mapSet
  by_cases hany : m.any (fun p => p.1 == k) = true
  · rw [if_pos hany]
    unfold mapLookup
    induction m with
    | nil => simp at hany
    | cons p r ih =>
      rw [List.map_cons]
      by_cases hp : (p.1 == k) = true
      · rw [if_pos hp, List.find?_cons_of_pos _ (by simp)]
      · rw [if_neg hp, List.find?_cons_of_neg _ (by simp [hp])]
        rw [List.any_cons] at hany
        simp only [hp, Bool.false_or] at hany
        exact ih hany
  · rw [if_neg hany]
    unfold mapLookup
    rw [List.find?_append]
    have hnone : m.find? (fun p => p.1 == k) = none := by
      rw [List.find?_eq_none]
      intro p hp hpk
      exact hany (List.any_eq_true.mpr ⟨p, hp, hpk⟩)
    rw [hnone, Option.none_or, List.find?_cons_of_pos _ (by simp)]

/-- Helper: the updated list of `mapSet` answers other keys as before. -/
theorem find?_update_other (k k' : JStr) (v : ParsedUnit) (hne : k' ≠ k) :
    ∀ r : List (JStr × ParsedUnit),
      (r.map (fun p => if p.1 == k then (k, v) else p)).find? (fun p => p.1 == k') =
        r.find? (fun p => p.1 == k') := by
  have hkk : ((k, v).1 == k') = false := by
    rw [beq_eq_false_iff_ne]
    exact fun hc => hne hc.symm
  intro r
  induction r with
  | nil => rfl
  | cons p t ih =>
    rw [List.map_cons]
    by_cases hp : (p.1 == k) = true
    · have hp2 : (p.1 == k') = false := by
        rw [beq_eq_false_iff_ne, eq_of_beq hp]
        exact fun hc => hne hc.symm
      rw [if_pos hp, List.find?_cons_of_neg _ (by simp [hkk]),
        List.find?_cons_of_neg _ (by simp [hp2])]
      exact ih
    · rw [if_neg hp]
      by_cases hq : (p.1 == k') = true
      · rw [List.find?_cons_of_pos (p := fun q : JStr × ParsedUnit => q.1 == k') _ hq,
          List.find?_cons_of_pos (p := fun q : JStr × ParsedUnit => q.1 == k') _ hq]
      · rw [List.find?_cons_of_neg (p := fun q : JStr × ParsedUnit => q.1 == k') _ hq,
          List.find?_cons_of_neg (p := fun q : JStr × ParsedUnit => q.1 == k') _ hq]
        exact ih

/-- Helper: looking up a different key is unchanged by `mapSet`. -/
theorem mapLookup_mapSet_other (m : List (JStr × ParsedUnit)) (k k' : JStr)
    (v : ParsedUnit) (hne : k' ≠ k) :
    mapLookup (mapSet m k v) k' = mapLookup m k' := by
  have hkk : ((k, v).1 == k') = false := by
    rw [beq_eq_false_iff_ne]
    exact fun hc => hne hc.symm
  unfold mapSet
  by_cases hany : m.any (fun p => p.1 == k) = true
  · rw [if_pos hany]
    unfold mapLookup
    rw [find?_update_other k k' v hne m]
  · rw [if_neg hany]
    unfold mapLookup
    rw [List.find?_append]
    have h2 : List.find? (fun p => p.1 == k') [(k, v)] = none := by
      rw [List.find?_eq_none]
      intro p hp
      rw [List.mem_singleton] at hp
      subst hp
      simp [hkk]
    rw [h2]
    cases m.find? (fun p => p.1 == k') <;> rfl

/-- Helper: the fold of `fetchAppFolioUnits` from any start map — key
distinctness is preserved, and the lookup of `k` is the last entry
contributed for `k`, else the start map's answer. -/
theorem appfolioFold_invariant :
    ∀ (ls : List RawListing) (m : List (JStr × ParsedUnit)),
      ((m.map Prod.fst).Nodup →
        (((ls.foldl
              (fun m l =>
                match listingEntry l with
                | none => m
                | some kv => mapSet m kv.1 kv.2)
              m).map Prod.fst).Nodup)) ∧
        ∀ k, mapLookup
            (ls.foldl
              (fun m l =>
                match listingEntry l with
                | none => m
                | some kv => mapSet m kv.1 kv.2)
              m) k = (lastVal k ls).or (mapLookup m k) := by
  intro ls
  induction ls with
  | nil =>
    intro m
    refine ⟨fun h => h, fun k => ?_⟩
    rw [List.foldl_nil]
    unfold lastVal
    rw [List.filterMap_nil, List.filter_nil, List.getLast?_nil]
    rfl
  | cons l ls' ih =>
    intro m
    constructor
    · intro h
      rw [List.foldl_cons]
      cases hl : listingEntry l with
      | none => exact (ih m).1 h
      | some kv => exact (ih (mapSet m kv.1 kv.2)).1 (mapSet_nodup m kv.1 kv.2 h)
    · intro k
      rw [List.foldl_cons]
      cases hl : listingEntry l with
      | none =>
        rw [(ih m).2 k]
        unfold lastVal
        rw [List.filterMap_cons, hl]
      | some kv =>
        rw [(ih (mapSet m kv.1 kv.2)).2 k]
        unfold lastVal
        rw [List.filterMap_cons, hl, List.filter_cons]
        by_cases hk : (kv.1 == k) = true
        · obtain heq := eq_of_beq hk
          subst heq
          rw [mapLookup_mapSet_self, if_pos hk, getLast?_cons_or]
          cases hF : ((ls'.filterMap listingEntry).filter
              (fun p => p.1 == kv.1)).getLast? with
          | none => simp
          | some pv => simp
        · have hne : k ≠ kv.1 := fun hc => hk (by simp [hc])
          rw [if_neg hk, mapLookup_mapSet_other m kv.1 k kv.2 hne]

/-- C7 (amended): in the AppFolio fetch the unit map is keyed by slug, so its
slugs are pairwise distinct and the value for a slug comes from the last
listing that produced it.  (The RentCafe framer normalization, by contrast,
does not deduplicate — see the counterexample theorem.) -/
theorem appfolio_slug_unique_last_wins :
    (∀ ls : List RawListing, ((fetchAppFolioUnits ls).map Prod.fst).Nodup) ∧
      ∀ (ls : List RawListing) (k : JStr),
        mapLookup (fetchAppFolioUnits ls) k = lastVal k ls := by
  constructor
  · intro ls
    exact (appfolioFold_invariant ls []).1 (by simp)
  · intro ls k
    have := (appfolioFold_invariant ls []).2 k
    unfold fetchAppFolioUnits
    rw [this]
    cases lastVal k ls <;> rfl

/-- C8 counterexample: the Framer item builder writes `minRent` through
unrounded — a minimum rent of 1234.10 is written as 1234.10, not 1235, so
not every field mapper applies the ceiling policy. -/
theorem framer_rent_not_rounded :
    (buildFramerItems "p".data
        [({ slug := "u".data, unitType := [], available := true, availableDate := [],
            minRent := some ((12341 : ℚ) / 10), maxRent := none,
            updatedAt := "x".data }, false)]
        none "now".data).map (fun i => jsGet i.fields ("Minimum Rent".data)) =
      [JVal.num ((12341 : ℚ) / 10)] ∧ ((12341 : ℚ) / 10 ≠ 1235) :=
  ⟨rfl, by norm_num⟩

/-- C8 (amended): `roundUp` is exactly the ceiling — the least integer at or
above its argument — and the On-Site field mapper applies it to the rent
amounts, so `$1,234.10` maps to 1235 (never 1234); the Framer builder,
however, passes `minRent` through without rounding. -/
theorem rent_rounding_policy :
    (∀ q : ℚ, roundUp (JVal.num q) = JVal.num ((⌈q⌉ : ℤ) : ℚ) ∧
      q ≤ ((⌈q⌉ : ℤ) : ℚ) ∧ ((⌈q⌉ : ℤ) : ℚ) < q + 1) ∧
      (∀ (avail : List (Option JStr)) (unit : OnSiteUnit) (num : JStr),
        jsGet (onSiteNewData avail unit num) ("effective-rent-amount".data) =
            roundUp (numOrNull (convertNumber unit.effectiveRentAmount)) ∧
          jsGet (onSiteNewData avail unit num) ("original-rent-amount".data) =
            roundUp (numOrNull (convertNumber unit.rentAmount))) ∧
      convertNumber (XVal.str "$1,234.10".data) =
        some ((1234 : ℚ) + (10 : ℚ) / (10 : ℚ) ^ 2) ∧
      roundUp (numOrNull (convertNumber (XVal.str "$1,234.10".data))) = JVal.num 1235 ∧
      (1235 : ℤ) ≠ 1234 ∧
      ∀ (property : JStr) (u : CanonicalUnit) (f : Bool) (nowIso : JStr),
        (buildFramerItems property [(u, f)] none nowIso).map
            (fun i => jsGet i.fields ("Minimum Rent".data)) =
          [numOrNull u.minRent] := by
  refine ⟨?_, ?_, rfl, ?_, by decide, ?_⟩
  · intro q
    exact ⟨rfl, Int.le_ceil q, Int.ceil_lt_add_one q⟩
  · intro avail unit num
    exact ⟨rfl, rfl⟩
  · have hc : (⌈(1234 : ℚ) + (10 : ℚ) / (10 : ℚ) ^ 2⌉ : ℤ) = 1235 := by
      rw [Int.ceil_eq_iff]
      constructor <;> norm_num
    have h1 : roundUp (numOrNull (convertNumber (XVal.str "$1,234.10".data))) =
        JVal.num ((⌈(1234 : ℚ) + (10 : ℚ) / (10 : ℚ) ^ 2⌉ : ℤ) : ℚ) := rfl
    rw [h1, hc]
    norm_num
  · intro property u f nowIso
    rfl

/-- C4 (amended): the retry mechanics hold — on a 429 the writer waits the
server-specified interval (1 second when the header is absent) and retries,
consuming exactly one retry slot; one 429 followed by a success completes
without a write error; the budget of 3 retries means four attempts, after
which the write fails.  The amendment: an exhausted-retry failure is NOT
contained to that item — the thrown error aborts the remaining writes and
the publish of the run (only `main`'s catch keeps the process alive). -/
theorem rate_limit_retry_policy :
    (∀ (w : Nat) (rest : List (Nat × Option Nat)),
      updateWebflowItem ((429, some w) :: (200, none) :: rest) 3 = ([w], .ok ())) ∧
      (∀ rest : List (Nat × Option Nat),
        updateWebflowItem ((429, none) :: (200, none) :: rest) 3 = ([1], .ok ())) ∧
      (∀ (w : Nat) (rest : List (Nat × Option Nat)) (retry : Nat), retry ≠ 0 →
        updateWebflowItem ((429, some w) :: rest) retry =
          (w :: (updateWebflowItem rest (retry - 1)).1,
            (updateWebflowItem rest (retry - 1)).2)) ∧
      ∀ w : Nat, updateWebflowItem (List.replicate 4 (429, some w)) 3 =
        ([w, w, w], .error ()) := by
  refine ⟨fun w rest => rfl, fun rest => rfl, ?_, fun w => rfl⟩
  intro w rest retry h
  rw [updateWebflowItem, if_neg (by norm_num), if_pos ⟨rfl, h⟩]
  rfl

/-- C4 counterexample: a write whose four attempts all return 429 (with
Retry-After 2) exhausts the retry budget and the thrown error aborts the
run — the second changed item is never attempted and no publish happens —
contradicting "a write failure for that item only, not a fatal error for
the run". -/
theorem exhausted_retries_abort_run :
    updateWebflowCollections (fun n => if n = 0 then List.replicate 4 (429, some 2) else [])
      [({ property := "X".data,
          allUnits :=
            [{ apartmentNum := some "101".data },
             { apartmentNum := some "102".data }],
          siteId := "site".data },
        [{ id := "itemA".data,
           fieldData := [("slug".data, JVal.str "101".data),
             ("show-online".data, JVal.bool true)] },
         { id := "itemB".data,
           fieldData := [("slug".data, JVal.str "102".data),
             ("show-online".data, JVal.bool true)] }],
        [])] 0 =
      ([Effect.patch "itemA".data [2, 2, 2] false], 1, .error ()) := rfl

/-- C3 counterexample: a plain 500 write failure on the first changed item
ends the run — the second item's write is never attempted and the publish
step does not execute — contradicting "a failure of one item's write does
not prevent the writes for the remaining items, and publish still runs". -/
theorem write_failure_stops_siblings :
    updateWebflowCollections (fun n => if n = 0 then [(500, none)] else [])
      [({ property := "NOLANMAINS".data,
          allUnits :=
            [{ apartmentNum := some "101".data },
             { apartmentNum := some "102".data }],
          siteId := "siteN".data },
        [{ id := "u1".data,
           fieldData := [("slug".data, JVal.str "101".data),
             ("show-online".data, JVal.bool true)] },
         { id := "u2".data,
           fieldData := [("slug".data, JVal.str "102".data),
             ("show-online".data, JVal.bool true)] }],
        [])] 0 =
      ([Effect.patch "u1".data [] false], 1, .error ()) := rfl

/-- Helper: the unit-update loop emits no publish effect. -/
theorem updateUnitsGo_no_publish (resp : Nat → List (Nat × Option Nat))
    (avail : List (Option JStr)) (items : List StoreItem) :
    ∀ (units : List OnSiteUnit) (n : Nat) (s : JStr),
      Effect.publish s ∉ (updateUnitsGo resp avail items units n).1 := by
  intro units
  induction units with
  | nil => intro n s h; simp [updateUnitsGo] at h
  | cons unit rest ih =>
    intro n s h
    unfold updateUnitsGo at h
    split at h
    · exact ih n s h
    · split at h
      · exact ih n s h
      · split at h
        · exact ih n s h
        · split at h
          · exact ih n s h
          · split at h
            · simp only [List.mem_cons] at h
              rcases h with h | h
              · exact absurd h (by simp)
              · exact ih (_ + 1) s h
            · simp at h

/-- Helper: the floorplan-update loop emits no publish effect. -/
theorem updateFloorPlansGo_no_publish (resp : Nat → List (Nat × Option Nat))
    (items : List StoreItem) :
    ∀ (fps : List Floorplan) (n : Nat) (s : JStr),
      Effect.publish s ∉ (updateFloorPlansGo resp items fps n).1 := by
  intro fps
  induction fps with
  | nil => intro n s h; simp [updateFloorPlansGo] at h
  | cons fp rest ih =>
    intro n s h
    unfold updateFloorPlansGo at h
    split at h
    · exact ih n s h
    · split at h
      · exact ih n s h
      · split at h
        · exact ih n s h
        · split at h
          · simp only [List.mem_cons] at h
            rcases h with h | h
            · exact absurd h (by simp)
            · exact ih (_ + 1) s h
          · simp at h

/-- Helper: when the unit loop throws, its effect list ends with the failed
patch — nothing after the failing item was attempted. -/
theorem updateUnitsGo_error_last (resp : Nat → List (Nat × Option Nat))
    (avail : List (Option JStr)) (items : List StoreItem) :
    ∀ (units : List OnSiteUnit) (n : Nat) (e : Unit),
      (updateUnitsGo resp avail items units n).2.2 = .error e →
      ∃ pre id ws, (updateUnitsGo resp avail items units n).1 =
        pre ++ [Effect.patch id ws false] := by
  intro units
  induction units with
  | nil => intro n e h; simp [updateUnitsGo] at h
  | cons unit rest ih =>
    intro n e
    unfold updateUnitsGo
    split
    · exact ih n e
    · split
      · exact ih n e
      · split
        · exact ih n e
        · split
          · exact ih n e
          · split
            · intro h
              simp only at h
              obtain ⟨pre, id, ws, hes⟩ := ih (n + 1) e h
              exact ⟨_ :: pre, id, ws, by rw [List.cons_append, ← hes]⟩
            · intro _
              exact ⟨[], _, _, rfl⟩

/-- Helper: when the floorplan loop throws, its effect list ends with the
failed patch. -/
theorem updateFloorPlansGo_error_last (resp : Nat → List (Nat × Option Nat))
    (items : List StoreItem) :
    ∀ (fps : List Floorplan) (n : Nat) (e : Unit),
      (updateFloorPlansGo resp items fps n).2.2 = .error e →
      ∃ pre id ws, (updateFloorPlansGo resp items fps n).1 =
        pre ++ [Effect.patch id ws false] := by
  intro fps
  induction fps with
  | nil => intro n e h; simp [updateFloorPlansGo] at h
  | cons fp rest ih =>
    intro n e
    unfold updateFloorPlansGo
    split
    · exact ih n e
    · split
      · exact ih n e
      · split
        · exact ih n e
        · split
          · intro h
            simp only at h
            obtain ⟨pre, id, ws, hes⟩ := ih (n + 1) e h
            exact ⟨_ :: pre, id, ws, by rw [List.cons_append, ← hes]⟩
          · intro _
            exact ⟨[], _, _, rfl⟩

/-- Helper: an effect list with no publish member counts zero publishes. -/
theorem countPublish_eq_zero (es : List Effect) (h : ∀ s, Effect.publish s ∉ es) :
    countPublish es = 0 := by
  unfold countPublish
  rw [List.filter_eq_nil_iff.mpr ?_]
  · rfl
  · intro a ha
    cases a with
    | patch id ws ok => simp [isPublish]
    | publish s => exact absurd ha (h s)

/-- Helper: publish counting is additive. -/
theorem countPublish_append (l1 l2 : List Effect) :
    countPublish (l1 ++ l2) = countPublish l1 + countPublish l2 := by
  unfold countPublish
  rw [List.filter_append, List.length_append]

/-- C3 (amended): per-item write failures are NOT isolated.  In one
property's run, a successful pass publishes exactly once after all writes;
but when any item's write throws, the run stops at that item — the effect
list contains no publish at all and ends with the failed patch, so the
remaining items' writes were never attempted.  (Fetch failures, by
contrast, are isolated per property inside `fetchApartmentData`.) -/
theorem write_failure_not_isolated (resp : Nat → List (Nat × Option Nat))
    (a : Apartment) (items fpItems : List StoreItem) (n : Nat) :
    ((runApartment resp a items fpItems n).2.2 = .ok () →
      countPublish (runApartment resp a items fpItems n).1 = 1) ∧
      ∀ e, (runApartment resp a items fpItems n).2.2 = .error e →
        (∀ s, Effect.publish s ∉ (runApartment resp a items fpItems n).1) ∧
        ∃ pre id ws, (runApartment resp a items fpItems n).1 =
          pre ++ [Effect.patch id ws false] := by
  rcases hgo : updateUnitsGo resp (availNums a) items a.allUnits n with ⟨es, nrest⟩
  rcases nrest with ⟨n1, r⟩
  have hnp : ∀ s, Effect.publish s ∉ es := by
    intro s
    have h1 := updateUnitsGo_no_publish resp (availNums a) items a.allUnits n s
    rw [hgo] at h1
    exact h1
  cases r with
  | error e0 =>
    have hr : runApartment resp a items fpItems n = (es, n1, .error e0) := by
      unfold runApartment
      rw [hgo]
    rw [hr]
    constructor
    · intro hok
      simp at hok
    · intro e _
      refine ⟨fun s => hnp s, ?_⟩
      have hel := updateUnitsGo_error_last resp (availNums a) items a.allUnits n e0
      rw [hgo] at hel
      exact hel rfl
  | ok u =>
    cases u
    by_cases hA : a.property = "ALVERA".data
    · rcases hfp : updateFloorPlansRun resp a fpItems n1 with ⟨es2, nrest2⟩
      rcases nrest2 with ⟨n2, r2⟩
      have hnp2 : ∀ s, Effect.publish s ∉ es2 := by
        intro s
        have h2 := updateFloorPlansGo_no_publish resp fpItems a.floorplans n1 s
        unfold updateFloorPlansRun at hfp
        rw [if_pos hA] at hfp
        rw [hfp] at h2
        exact h2
      cases r2 with
      | error e2 =>
        have hr : runApartment resp a items fpItems n = (es ++ es2, n2, .error e2) := by
          unfold runApartment
          rw [hgo]
          dsimp only
          rw [if_pos hA, hfp]
        rw [hr]
        constructor
        · intro hok
          simp at hok
        · intro e _
          constructor
          · intro s hmem
            rcases List.mem_append.mp hmem with hm | hm
            · exact hnp s hm
            · exact hnp2 s hm
          · have hel := updateFloorPlansGo_error_last resp fpItems a.floorplans n1 e2
            unfold updateFloorPlansRun at hfp
            rw [if_pos hA] at hfp
            rw [hfp] at hel
            obtain ⟨pre, id, ws, hes⟩ := hel rfl
            refine ⟨es ++ pre, id, ws, ?_⟩
            dsimp only at hes ⊢
            rw [hes, List.append_assoc]
      | ok u2 =>
        cases u2
        have hr : runApartment resp a items fpItems n =
            (es ++ es2 ++ [.publish a.siteId], n2, .ok ()) := by
          unfold runApartment
          rw [hgo]
          dsimp only
          rw [if_pos hA, hfp]
        rw [hr]
        constructor
        · intro _
          rw [countPublish_append, countPublish_append,
            countPublish_eq_zero es hnp, countPublish_eq_zero es2 hnp2]
          rfl
        · intro e he
          simp at he
    · have hr : runApartment resp a items fpItems n =
          (es ++ [.publish a.siteId], n1, .ok ()) := by
        unfold runApartment
        rw [hgo]
        dsimp only
        rw [if_neg hA]
      rw [hr]
      constructor
      · intro _
        rw [countPublish_append, countPublish_eq_zero es hnp]
        rfl
      · intro e he
        simp at he

/-- Helper: `pickBest` returns an element of its candidate list. -/
theorem pickBest_mem : ∀ (cs : List (Nat × CanonicalUnit)) (c : Nat × CanonicalUnit),
    pickBest c cs ∈ c :: cs := by
  intro cs
  induction cs with
  | nil => intro c; exact List.mem_cons_self c []
  | cons p rest ih =>
    intro c
    simp only [pickBest]
    rcases List.mem_cons.mp (ih (if unitKey p.2 < unitKey c.2 then p else c)) with h | h
    · rw [h]
      split
      · exact List.mem_cons_of_mem c (List.mem_cons_self p rest)
      · exact List.mem_cons_self c (p :: rest)
    · exact List.mem_cons_of_mem c (List.mem_cons_of_mem p h)

/-- Helper: `pickBest` is minimal under `unitKey` among its candidates. -/
theorem pickBest_min : ∀ (cs : List (Nat × CanonicalUnit)) (c x : Nat × CanonicalUnit),
    x ∈ c :: cs → unitKey (pickBest c cs).2 ≤ unitKey x.2 := by
  intro cs
  induction cs with
  | nil =>
    intro c x hx
    rcases List.mem_cons.mp hx with rfl | h
    · exact le_refl _
    · simp at h
  | cons p rest ih =>
    intro c x hx
    simp only [pickBest]
    have hc'c : unitKey (if unitKey p.2 < unitKey c.2 then p else c).2 ≤ unitKey c.2 := by
      split
      · next h => exact le_of_lt h
      · exact le_refl _
    have hc'p : unitKey (if unitKey p.2 < unitKey c.2 then p else c).2 ≤ unitKey p.2 := by
      split
      · exact le_refl _
      · next h => exact le_of_not_lt h
    rcases List.mem_cons.mp hx with rfl | hx'
    · exact le_trans (ih _ _ (List.mem_cons_self _ rest)) hc'c
    · rcases List.mem_cons.mp hx' with rfl | hx''
      · exact le_trans (ih _ _ (List.mem_cons_self _ rest)) hc'p
      · exact ih _ x (List.mem_cons_of_mem _ hx'')

/-- Helper: the featured flag at a position, as the winner test. -/
theorem applyFeatured_getD (units : List CanonicalUnit) (i : Nat) :
    (applyFeaturedFlags units).getD i false =
      if i < units.length then
        (typeKeys units).any (fun t => winnerIdx units t == some i)
      else false := by
  unfold applyFeaturedFlags
  by_cases hi : i < units.length
  · rw [if_pos hi, List.getD_eq_getElem?_getD,
      List.getElem?_eq_getElem (by rw [List.length_map, List.enum_length]; exact hi),
      List.getElem_map, List.getElem_enum]
    rfl
  · rw [if_neg hi, List.getD_eq_getElem?_getD,
      List.getElem?_eq_none (by rw [List.length_map, List.enum_length]; omega)]
    rfl

/-- Helper: what a winning index of a group satisfies — it carries an
available unit of the group's type, minimal under `unitKey` among all
available units of that type. -/
theorem winnerIdx_spec (units : List CanonicalUnit) (t : JStr) (i : Nat)
    (h : winnerIdx units t = some i) :
    ∃ u, (i, u) ∈ units.enum ∧ u.unitType = t ∧ u.available = true ∧
      ∀ j v, (j, v) ∈ units.enum → v.unitType = t → v.available = true →
        unitKey u ≤ unitKey v := by
  unfold winnerIdx at h
  cases hc : units.enum.filter (fun p => p.2.unitType == t && p.2.available) with
  | nil => rw [hc] at h; exact absurd h (by simp)
  | cons c cs =>
    rw [hc] at h
    injection h with h'
    have hbm := pickBest_mem cs c
    rw [← hc] at hbm
    have hfm := List.mem_filter.mp hbm
    have hpred := hfm.2
    simp only [Bool.and_eq_true, beq_iff_eq] at hpred
    refine ⟨(pickBest c cs).2, ?_, hpred.1, hpred.2, ?_⟩
    · rw [← h']
      exact hfm.1
    · intro j v hjv hvt hva
      have hvf : (j, v) ∈ units.enum.filter
          (fun p => p.2.unitType == t && p.2.available) :=
        List.mem_filter.mpr ⟨hjv, by simp [hvt, hva]⟩
      rw [hc] at hvf
      exact pickBest_min cs c (j, v) hvf

/-- Helper: a position is featured exactly when it wins some group. -/
theorem featured_iff (units : List CanonicalUnit) (i : Nat) :
    (applyFeaturedFlags units).getD i false = true ↔
      ∃ t ∈ typeKeys units, winnerIdx units t = some i := by
  rw [applyFeatured_getD]
  by_cases hi : i < units.length
  · rw [if_pos hi, List.any_eq_true]
    constructor
    · rintro ⟨t, ht, hb⟩
      exact ⟨t, ht, by simpa using hb⟩
    · rintro ⟨t, ht, hw⟩
      exact ⟨t, ht, by rw [hw]; simp⟩
  · rw [if_neg hi]
    constructor
    · intro h
      simp at h
    · rintro ⟨t, _, hw⟩
      obtain ⟨u, hmem, -, -, -⟩ := winnerIdx_spec units t i hw
      exact absurd (List.mem_enum hmem).1 hi

/-- Helper: a unit with non-empty type contributes its type key. -/
theorem mem_typeKeys (units : List CanonicalUnit) (u : CanonicalUnit)
    (hu : u ∈ units) (hne : u.unitType ≠ []) : u.unitType ∈ typeKeys units := by
  unfold typeKeys
  rw [List.mem_dedup]
  refine List.mem_map.mpr ⟨u, List.mem_filter.mpr ⟨hu, ?_⟩, rfl⟩
  simp [List.isEmpty_iff, hne]

/-- Helper: every type key is non-empty. -/
theorem typeKeys_ne_nil (units : List CanonicalUnit) :
    ∀ t ∈ typeKeys units, t ≠ [] := by
  intro t ht
  unfold typeKeys at ht
  rw [List.mem_dedup] at ht
  obtain ⟨v, hvf, rfl⟩ := List.mem_map.mp ht
  have := (List.mem_filter.mp hvf).2
  simpa [List.isEmpty_iff] using this

/-- C1: on canonical units (whose `availableDate` is empty or parseable),
the featured selector marks exactly one unit per group of units sharing a
non-empty `unitType` that contains an available unit, the marked unit being
minimal under ascending `minRent` (null as +infinity), then ascending
parsed `availableDate` (missing as +infinity), then the slug; every other
unit ends up not featured. -/
theorem applyFeaturedFlags_correct (units : List CanonicalUnit) (hd : DatesOk units) :
    FeaturedSpec units (applyFeaturedFlags units) := by
  refine ⟨?_, ?_, ?_⟩
  · unfold applyFeaturedFlags
    rw [List.length_map, List.enum_length]
  · intro i u hmem hf
    obtain ⟨t, ht, hw⟩ := (featured_iff units i).mp hf
    obtain ⟨u', hmem', ht', hav', hmin⟩ := winnerIdx_spec units t i hw
    have hi := List.mem_enum hmem
    have hi' := List.mem_enum hmem'
    have huu : u = u' := by rw [hi.2, hi'.2]
    subst huu
    refine ⟨hav', ?_, ?_⟩
    · rw [ht']
      exact typeKeys_ne_nil units t ht
    · intro j v hjv hvt hva
      exact hmin j v hjv (by rw [hvt, ht']) hva
  · rintro t htne ⟨j, v, hjv, hvt, hvav⟩
    have hvmem : v ∈ units := by
      have h1 := List.mem_enum hjv
      rw [h1.2]
      exact List.getElem_mem h1.1
    have hvfilter : (j, v) ∈ units.enum.filter
        (fun p => p.2.unitType == t && p.2.available) :=
      List.mem_filter.mpr ⟨hjv, by simp [hvt, hvav]⟩
    have hsome : ∃ w, winnerIdx units t = some w := by
      unfold winnerIdx
      cases hc : units.enum.filter (fun p => p.2.unitType == t && p.2.available) with
      | nil => rw [hc] at hvfilter; simp at hvfilter
      | cons c cs => exact ⟨(pickBest c cs).1, rfl⟩
    obtain ⟨w, hw⟩ := hsome
    have htk : t ∈ typeKeys units := by
      have := mem_typeKeys units v hvmem (by rw [hvt]; exact htne)
      rw [hvt] at this
      exact this
    obtain ⟨uw, hwmem, hwt, -, -⟩ := winnerIdx_spec units t w hw
    refine ⟨w, ⟨(featured_iff units w).mpr ⟨t, htk, hw⟩, uw, hwmem, hwt⟩, ?_⟩
    rintro y ⟨hfy, u2, hy2, hty2⟩
    obtain ⟨t2, ht2, hw2⟩ := (featured_iff units y).mp hfy
    obtain ⟨u2', hy2', ht2', -, -⟩ := winnerIdx_spec units t2 y hw2
    have hu2 : u2 = u2' := by
      rw [(List.mem_enum hy2).2, (List.mem_enum hy2').2]
    have ht2t : t2 = t := by
      rw [← ht2', ← hu2, hty2]
    rw [ht2t] at hw2
    rw [hw] at hw2
    injection hw2 with hwy
    exact hwy.symm

/-- C1 witness: the hypothesis holds and the theorem applies on a concrete
two-unit group of type `s1` with rents 1000 and 1200 and empty dates. -/
theorem applyFeaturedFlags_correct_witness :
    DatesOk
        [{ slug := "a".data, unitType := "s1".data, available := true,
           availableDate := [], minRent := some 1000, maxRent := none, updatedAt := [] },
         { slug := "b".data, unitType := "s1".data, available := true,
           availableDate := [], minRent := some 1200, maxRent := none, updatedAt := [] }] ∧
      FeaturedSpec
        [{ slug := "a".data, unitType := "s1".data, available := true,
           availableDate := [], minRent := some 1000, maxRent := none, updatedAt := [] },
         { slug := "b".data, unitType := "s1".data, available := true,
           availableDate := [], minRent := some 1200, maxRent := none, updatedAt := [] }]
        (applyFeaturedFlags
          [{ slug := "a".data, unitType := "s1".data, available := true,
             availableDate := [], minRent := some 1000, maxRent := none, updatedAt := [] },
           { slug := "b".data, unitType := "s1".data, available := true,
             availableDate := [], minRent := some 1200, maxRent := none, updatedAt := [] }]) :=
  ⟨by unfold DatesOk; decide, applyFeaturedFlags_correct _ (by unfold DatesOk; decide)⟩
